import Mathlib

/-!
Verification development for the patch matching, repair and validation engine
of LLM4Backport (`src/tools/utils.py`, `src/tools/project.py`).

The Python code is shallowly embedded: Python strings are Lean `String`s,
Python lists are Lean `List`s, Python `None`/exceptions are modelled with
`Option`/`Except Unit`, Python's `float("inf")` minimum-distance sentinel is
modelled with `Option Nat` (`none` = infinity), and Python's negative-index
wraparound is modelled explicitly (`pyIdx`, `pySet`, `pySlice`).
-/

namespace LLM4Backport

/-! ## Python-style string primitives -/

/-- Python's notion of a whitespace character (`str.strip`, regex `\s`). -/
def pyIsSpace (c : Char) : Bool :=
  c = ' ' || c = '\t' || c = '\n' || c = '\x0d' || c = '\x0b' || c = '\x0c'

/-- Python `s.strip()`: remove leading and trailing whitespace. -/
def pyStrip (s : String) : String :=
  ⟨((s.data.dropWhile pyIsSpace).reverse.dropWhile pyIsSpace).reverse⟩

/-- Python `s.strip("\n")`: remove leading and trailing newline characters. -/
def stripNl (s : String) : String :=
  ⟨((s.data.dropWhile (· = '\n')).reverse.dropWhile (· = '\n')).reverse⟩

/-- Python `s.rstrip("\n")`: remove trailing newline characters. -/
def rstripNl (s : String) : String :=
  ⟨(s.data.reverse.dropWhile (· = '\n')).reverse⟩

/-- Python `re.sub(r"\s+", "", s)`: delete every whitespace character. -/
def stripAllWS (s : String) : String :=
  ⟨s.data.filter (fun c => !(pyIsSpace c))⟩

/-- Python `s.startswith(pre)`. -/
def pyStartsWith (s pre : String) : Bool :=
  s.data.take pre.data.length == pre.data

/-- Python `s.endswith(suf)`. -/
def pyEndsWith (s suf : String) : Bool :=
  s.data.reverse.take suf.data.length == suf.data.reverse

/-- Python `s[n:]` for a nonnegative `n`. -/
def strDrop (s : String) (n : Nat) : String := ⟨s.data.drop n⟩

/-- Python `s[:n]` for a nonnegative `n`. -/
def strTake (s : String) (n : Nat) : String := ⟨s.data.take n⟩

/-- Python `len(s)`. -/
def pyLen (s : String) : Nat := s.data.length

/-- Whether `sub` occurs as a contiguous subsequence of `s` (Python `sub in s`). -/
def containsSub : List Char → List Char → Bool
  | [], sub => sub == []
  | c :: cs, sub => sub == (c :: cs).take sub.length || containsSub cs sub

/-- Python `sub in s` on strings. -/
def pyIn (sub s : String) : Bool := containsSub s.data sub.data

/-- Python `l[i]` as used for reading: nonnegative indices from the front,
negative indices wrap from the back, out-of-range raises (`none`). -/
def pyIdx {α : Type} (l : List α) (i : Int) : Option α :=
  if 0 ≤ i then l.get? i.toNat
  else if (-i).toNat ≤ l.length then l.get? (l.length - (-i).toNat)
  else none

/-- Python `l[i] = v`: item assignment with negative-index wraparound;
out-of-range raises (`none`). -/
def pySet {α : Type} (l : List α) (i : Int) (v : α) : Option (List α) :=
  if 0 ≤ i then
    if i.toNat < l.length then some (l.set i.toNat v) else none
  else if (-i).toNat ≤ l.length then some (l.set (l.length - (-i).toNat) v)
  else none

/-- Python `l[a:b]` with a nonnegative start and a possibly negative end. -/
def pySlice {α : Type} (l : List α) (a : Nat) (b : Int) : List α :=
  let bb : Nat := if b < 0 then ((l.length : Int) + b).toNat else b.toNat
  (l.take bb).drop a

/-- Split a character list on a single separator character
(Python `s.split(sep)` for one-character separators). -/
def splitOnChar (sep : Char) : List Char → List (List Char)
  | [] => [[]]
  | c :: cs =>
    if c = sep then [] :: splitOnChar sep cs
    else
      match splitOnChar sep cs with
      | [] => [[c]]
      | h :: t => (c :: h) :: t

/-- Python `s.split(sep)` for a one-character separator, on strings. -/
def pySplitOn (s : String) (sep : Char) : List String :=
  (splitOnChar sep s.data).map (fun l => ⟨l⟩)

/-- Python `s.splitlines()` restricted to `\n` line terminators
(the only terminator occurring in the data this program handles). -/
def pySplitlines (s : String) : List String :=
  if s.data = [] then []
  else if s.data.getLast? = some '\n' then
    ((splitOnChar '\n' s.data).dropLast).map (fun l => ⟨l⟩)
  else (splitOnChar '\n' s.data).map (fun l => ⟨l⟩)

/-- One fuel-indexed step list for `pyReplace`; the fuel is the length of the
subject so it never runs out. -/
def replaceAux (old new : List Char) : Nat → List Char → List Char
  | 0, s => s
  | _, [] => []
  | fuel + 1, c :: cs =>
    if old ≠ [] ∧ old = (c :: cs).take old.length then
      new ++ replaceAux old new fuel ((c :: cs).drop old.length)
    else c :: replaceAux old new fuel cs

/-- Python `s.replace(old, new)` (all non-overlapping occurrences, left to
right). For the degenerate `old = ""` the subject is returned unchanged;
no call site of this development uses an empty `old`. -/
def pyReplace (s old new : String) : String :=
  ⟨replaceAux old.data new.data s.data.length s.data⟩

/-- Python list `repr` of a list of strings, e.g. `['a', 'b']`
(as produced by an f-string interpolation of a list). -/
def pyReprList (l : List String) : String :=
  "[" ++ String.intercalate ", " (l.map (fun s => "\x27" ++ s ++ "\x27")) ++ "]"

/-- Join a list of strings with a separator (Python `sep.join(l)`). -/
def joinSep (sep : String) : List String → String
  | [] => ""
  | [x] => x
  | x :: xs => x ++ sep ++ joinSep sep xs

/-! ## Levenshtein distance

`Levenshtein.distance` on Python strings is the classic unit-cost edit
distance; we use Mathlib's `levenshtein` with the default cost structure. -/

/-- Unit-cost edit distance between two strings
(Python `Levenshtein.distance`). -/
def levDist (a b : String) : Nat :=
  levenshtein Levenshtein.defaultCost a.data b.data

theorem levenshtein_self (l : List Char) :
    levenshtein Levenshtein.defaultCost l l = 0 := by
  induction l with
  | nil => simp
  | cons c cs ih =>
    rw [levenshtein_cons_cons]
    simp [ih]

theorem levDist_self (s : String) : levDist s s = 0 :=
  levenshtein_self s.data

theorem eq_of_levenshtein_eq_zero :
    ∀ (a b : List Char), levenshtein Levenshtein.defaultCost a b = 0 → a = b := by
  intro a
  induction a with
  | nil =>
    intro b h
    cases b with
    | nil => rfl
    | cons y ys => simp [levenshtein_nil_cons] at h
  | cons x xs ih =>
    intro b h
    cases b with
    | nil => simp [levenshtein_cons_nil] at h
    | cons y ys =>
      rw [levenshtein_cons_cons] at h
      by_cases hxy : x = y
      · subst hxy
        simp only [Levenshtein.defaultCost_delete, Levenshtein.defaultCost_insert,
          Levenshtein.defaultCost_substitute, if_pos rfl] at h
        have h0 : levenshtein Levenshtein.defaultCost xs ys = 0 := by omega
        rw [ih ys h0]
      · simp only [Levenshtein.defaultCost_delete, Levenshtein.defaultCost_insert,
          Levenshtein.defaultCost_substitute, if_neg hxy] at h
        omega

theorem eq_of_levDist_eq_zero {a b : String} (h : levDist a b = 0) : a = b := by
  cases a; cases b
  exact congrArg String.mk (eq_of_levenshtein_eq_zero _ _ h)

/-! ## `find_most_similar_block` (utils.py lines 68-117)

The function returns `(best_start_index, min_distance)`.
`min_distance` starts as `float("inf")`, modelled as `none : Option Nat`.
The start index can become nonpositive after the offset-correction pass, so
it is an `Int`.  The whole computation is wrapped in `Except Unit` because
two spots of the Python code can raise an uncaught `IndexError`
(`main[i]` when `dline_flag` is set with a zero-length pattern, and
`pattern[i]` in the offset pass when `p_len` exceeds the pattern length). -/

/-- Edit distance between the window of `p_len` candidate lines starting at
0-based index `i` and the pattern, both joined with newlines. -/
def windowDist (pattern main : List String) (p_len i : Nat) : Nat :=
  levDist (joinSep "\n" ((main.drop i).take p_len)) (joinSep "\n" pattern)

/-- Comparison against the running minimum, where `none` is `float("inf")`. -/
def ltInf (d : Nat) (m : Option Nat) : Bool :=
  match m with
  | none => true
  | some v => d < v

/-- The sliding-window loop of `find_most_similar_block` (lines 87-95):
state is `(min_distance, best_start_index)`; an update happens when the
distance strictly improves and, under `dline_flag`, the window's first line
does not look like an added/removed diff line. -/
def fmsbScan (pattern main : List String) (p_len : Nat) (dline_flag : Bool) :
    List Nat → Option Nat × Nat → Except Unit (Option Nat × Nat)
  | [], st => .ok st
  | i :: rest, st =>
    if ltInf (windowDist pattern main p_len i) st.1 then
      if dline_flag then
        match main.get? i with
        | none => .error ()
        | some li =>
          if pyStartsWith li "+" || pyStartsWith li "-" then
            fmsbScan pattern main p_len dline_flag rest st
          else
            fmsbScan pattern main p_len dline_flag rest
              (some (windowDist pattern main p_len i), i + 1)
      else
        fmsbScan pattern main p_len dline_flag rest
          (some (windowDist pattern main p_len i), i + 1)
    else fmsbScan pattern main p_len dline_flag rest st

/-- Number of loop iterations: Python `range(len(main) - p_len + 1)`
(empty when the candidate is shorter than the pattern). -/
def numWindows (main : List String) (p_len : Nat) : Nat :=
  main.length + 1 - p_len

/-- Phase 1 of `find_most_similar_block`: the best window scan. -/
def fmsbPhase1 (pattern main : List String) (p_len : Nat) (dline_flag : Bool) :
    Except Unit (Option Nat × Nat) :=
  fmsbScan pattern main p_len dline_flag (List.range (numWindows main p_len)) (none, 1)

/-- The `j` values of the offset pass: Python `range(-5, 6)`. -/
def jRange : List Int := [-5, -4, -3, -2, -1, 0, 1, 2, 3, 4, 5]

/-- One step of the inner `j` loop of the offset pass (lines 105-112):
on an exact trimmed match at candidate index `lineno - 1 + j` (Python
indexing, so negative values wrap and out-of-range is swallowed by the bare
`except`), record offset `j - i` when its magnitude strictly improves. -/
def updOffset (pi : String) (main : List String) (lineno : Nat) (i : Nat)
    (acc : Option Int) (j : Int) : Option Int :=
  match pyIdx main ((lineno : Int) - 1 + j) with
  | none => acc
  | some s =>
    if pyStrip pi = pyStrip s then
      match acc with
      | none => some (j - (i : Int))
      | some o => if (j - (i : Int)).natAbs < o.natAbs then some (j - (i : Int)) else acc
    else acc

/-- The outer `i` loop of the offset pass (lines 102-115): skip pattern
lines whose stripped text is shorter than 3 characters; the first remaining
line that finds any trimmed match within `jRange` of the chosen window start
fixes the offset and breaks.  `pattern[i]` itself is accessed outside the
`try`, so a missing index is an uncaught error. -/
def offsetScan (pattern main : List String) (lineno : Nat) :
    List Nat → Except Unit Int
  | [] => .ok (lineno : Int)
  | i :: rest =>
    match pattern.get? i with
    | none => .error ()
    | some pi =>
      if (pyStrip pi).data.length < 3 then offsetScan pattern main lineno rest
      else
        match jRange.foldl (updOffset pi main lineno i) none with
        | some off => .ok ((lineno : Int) + off)
        | none => offsetScan pattern main lineno rest

/-- Phase 2 of `find_most_similar_block`: offset correction (lines 97-115),
performed only when `dline_flag` is off. -/
def offsetFix (pattern main : List String) (p_len lineno : Nat) : Except Unit Int :=
  offsetScan pattern main lineno (List.range p_len)

/-- Lean model of `find_most_similar_block` (utils.py lines 68-117). -/
def find_most_similar_block (pattern main : List String) (p_len : Nat)
    (dline_flag : Bool) : Except Unit (Int × Option Nat) :=
  match fmsbPhase1 pattern main p_len dline_flag with
  | .error _ => .error ()
  | .ok (minD, best) =>
    if dline_flag then .ok ((best : Int), minD)
    else
      match offsetFix pattern main p_len best with
      | .error _ => .error ()
      | .ok b => .ok (b, minD)

/-! ## Hunk header parsing

Model of `re.findall(r"@@ -(\d+),(\d+) \+(\d+),(\d+) @@(.*)", line)[0]`:
the first position (scanning left to right) where the pattern matches,
returning the five captured groups.  Numbers are kept as strings because the
Python code compares and re-prints them as strings. -/

/-- The five captured groups of a hunk header match. -/
structure HunkHeader where
  oldStart : String
  oldCount : String
  newStart : String
  newCount : String
  trail : String
deriving DecidableEq, Repr

/-- Drop a literal prefix, or fail. -/
def dropLit (lit : List Char) (cs : List Char) : Option (List Char) :=
  if cs.take lit.length = lit then some (cs.drop lit.length) else none

/-- Take a maximal nonempty digit run (regex `\d+` followed by a non-digit). -/
def takeDigits (cs : List Char) : Option (List Char × List Char) :=
  let run := cs.takeWhile Char.isDigit
  if run = [] then none else some (run, cs.dropWhile Char.isDigit)

/-- Try to match `@@ -(\d+),(\d+) \+(\d+),(\d+) @@(.*)` at the current
position. -/
def matchAtAt (cs : List Char) : Option HunkHeader :=
  (dropLit "@@ -".data cs).bind fun cs =>
  (takeDigits cs).bind fun p1 =>
  (dropLit [','] p1.2).bind fun cs =>
  (takeDigits cs).bind fun p2 =>
  (dropLit " +".data p2.2).bind fun cs =>
  (takeDigits cs).bind fun p3 =>
  (dropLit [','] p3.2).bind fun cs =>
  (takeDigits cs).bind fun p4 =>
  (dropLit " @@".data p4.2).bind fun cs =>
  some ⟨⟨p1.1⟩, ⟨p2.1⟩, ⟨p3.1⟩, ⟨p4.1⟩, ⟨cs.takeWhile (· ≠ '\n')⟩⟩

/-- First match of the hunk header pattern anywhere in the character list. -/
def parseAtAt : List Char → Option HunkHeader
  | [] => none
  | c :: cs =>
    match matchAtAt (c :: cs) with
    | some r => some r
    | none => parseAtAt cs

/-- First match of the hunk header pattern in a string. -/
def parseAtAtStr (s : String) : Option HunkHeader := parseAtAt s.data

/-- Model of `re.findall(r"<marker>(.*)", s)[0]`: the text after the first
occurrence of the literal `marker`, up to the end of its line; `none` when
the marker does not occur (the Python `[0]` raises `IndexError`). -/
def findSub (marker : List Char) : List Char → Option (List Char)
  | [] => if marker = [] then some [] else none
  | c :: cs =>
    if (c :: cs).take marker.length = marker then some ((c :: cs).drop marker.length)
    else findSub marker cs

/-- String version of `findSub`, capturing to the end of the line. -/
def reCaptureLine (marker s : String) : Option String :=
  (findSub marker.data s.data).map (fun r => ⟨r.takeWhile (· ≠ '\n')⟩)

/-! ## `extract_context` (utils.py lines 120-142) -/

/-- Lean model of `extract_context`: split hunk body lines into the
expected-old-content lines (context and removed, tags stripped) and the
added lines, with their counts. -/
def extract_context : List String → List String × List String
  | [] => ([], [])
  | l :: ls =>
    let (p, a) := extract_context ls
    if pyStartsWith l " " then (strDrop l 1 :: p, a)
    else if pyStartsWith l "-" then (strDrop l 1 :: p, a)
    else if pyStartsWith l "+" then (p, strDrop l 1 :: a)
    else (p, a)

/-! ## `revise_hunk` (utils.py lines 162-232) -/

/-- Line-prefix repair (lines 169-174): any body line not starting with
`+`, `-` or a space is coerced to a context line. -/
def coerceLine (l : String) : String :=
  if pyStartsWith l "+" || pyStartsWith l "-" || pyStartsWith l " " then l
  else " " ++ l

/-- The per-line rewrite loop of `revise_hunk` (lines 184-198).  `i` counts
the context/removed lines consumed so far; `lineno` is the aligned start
(1-based, possibly nonpositive).  The read `target_file_lines[lineno-1+i]`
is Python indexing outside any `try`, so an out-of-range access is an
uncaught error. -/
def reviseLinesAux (target : List String) (lineno : Int) (revise_context : Bool) :
    List String → Nat → Except Unit (List String)
  | [], _ => .ok []
  | line :: rest, i =>
    if pyStartsWith line " " || pyStartsWith line "-" then
      match pyIdx target (lineno - 1 + (i : Int)) with
      | none => .error ()
      | some newLine =>
        let out :=
          if revise_context then " " ++ stripNl newLine
          else if stripAllWS (strDrop line 1) = stripAllWS newLine then
            strTake line 1 ++ stripNl newLine
          else line
        match reviseLinesAux target lineno revise_context rest (i + 1) with
        | .error _ => .error ()
        | .ok rs => .ok (out :: rs)
    else
      match reviseLinesAux target lineno revise_context rest i with
      | .error _ => .error ()
      | .ok rs => .ok (pyReplace line "\x27s " "->" :: rs)

/-- The force-mode re-anchoring loop for removed lines
(lines 200-213): each `-` line of the body is re-located by a single-line
alignment over the already-revised lines at or after the previous removed
line's position, and that revised line's tag is flipped to `-`. -/
def forceMarkRemoved : List String → List String → Int → Except Unit (List String × Int)
  | [], rl, lastLine => .ok (rl, lastLine)
  | l :: rest, rl, lastLine =>
    if pyStartsWith l "-" then
      match find_most_similar_block [strDrop l 1] (rl.drop lastLine.toNat) 1 true with
      | .error _ => .error ()
      | .ok (dl, _) =>
        let dlineno := dl + lastLine
        match pyIdx rl (dlineno - 1) with
        | none => .error ()
        | some old =>
          match pySet rl (dlineno - 1) ("-" ++ strDrop old 1) with
          | none => .error ()
          | some rl2 => forceMarkRemoved rest rl2 dlineno
    else forceMarkRemoved rest rl lastLine

/-- Force-mode trailing-context repair (lines 215-218): when the last
revised line is not a context line, append the next real file line as
context. -/
def forceAppendContext (target : List String) (lineno : Int) (numContext : Nat)
    (rl : List String) : Except Unit (List String) :=
  match rl.getLast? with
  | none => .error ()
  | some last =>
    if pyStartsWith last " " then .ok rl
    else
      match pyIdx target (lineno - 1 + (numContext : Int)) with
      | none => .error ()
      | some nl => .ok (rl ++ [" " ++ stripNl nl])

/-- Recomputed hunk header (lines 221-230): the original start fields are
kept, the counts are recounted from the revised body. -/
def mkHeader (ch : HunkHeader) (orig patched : Nat) : String :=
  "@@ -" ++ ch.oldStart ++ "," ++ toString orig ++ " +" ++ ch.newStart ++ ","
    ++ toString patched ++ " @@" ++ ch.trail ++ "\n"

/-- Lean model of `revise_hunk` (utils.py lines 162-232): returns the
revised hunk text and the `fixed` flag. -/
def revise_hunk (lines target_file_lines : List String) (revise_context : Bool) :
    Except Unit (String × Bool) :=
  match lines with
  | [] => .error ()
  | l0 :: restL =>
    let last := (l0 :: restL).getLastD ""
    let lines1 :=
      if pyLen last = 0 || pyIn "\x5c No newline at end of file" last then
        (l0 :: restL).dropLast
      else l0 :: restL
    let tmpLines := (lines1.drop 1).map coerceLine
    let contexts := (extract_context tmpLines).1
    let numContext := contexts.length
    match find_most_similar_block contexts target_file_lines numContext false with
    | .error _ => .error ()
    | .ok (lineno, _) =>
      match reviseLinesAux target_file_lines lineno revise_context tmpLines 0 with
      | .error _ => .error ()
      | .ok revised =>
        let step2 : Except Unit (List String) :=
          if revise_context then
            match forceMarkRemoved tmpLines revised 0 with
            | .error _ => .error ()
            | .ok (rl, _) => forceAppendContext target_file_lines lineno numContext rl
          else .ok revised
        match step2 with
        | .error _ => .error ()
        | .ok revised2 =>
          match parseAtAtStr l0 with
          | none => .error ()
          | some ch =>
            let orig := revised2.countP (fun l => !(pyStartsWith l "+"))
            let patched := revised2.countP (fun l => !(pyStartsWith l "-"))
            .ok (mkHeader ch orig patched ++ joinSep "\n" revised2,
              decide (ch.oldStart ≠ ch.newStart))

/-! ## `os.path.normpath` (posixpath) -/

/-- The component-processing loop of `posixpath.normpath`; the accumulator
holds the kept components in reverse. -/
def normpathComps (initSlashes : Nat) : List String → List String → List String
  | acc, [] => acc.reverse
  | acc, comp :: rest =>
    if comp = "" ∨ comp = "." then normpathComps initSlashes acc rest
    else if comp ≠ ".." ∨ (initSlashes = 0 ∧ acc = []) ∨ (acc ≠ [] ∧ acc.head? = some "..") then
      normpathComps initSlashes (comp :: acc) rest
    else
      match acc with
      | [] => normpathComps initSlashes [] rest
      | _ :: t => normpathComps initSlashes t rest

/-- Lean model of `posixpath.normpath` as called by `revise_block`. -/
def normpath (p : String) : String :=
  if p = "" then "."
  else
    let initSlashes : Nat :=
      if pyStartsWith p "/" then
        if pyStartsWith p "//" && !(pyStartsWith p "///") then 2 else 1
      else 0
    let comps := pySplitOn p '/'
    let joined := joinSep "/" (normpathComps initSlashes [] comps)
    let path := (⟨List.replicate initSlashes '/'⟩ : String) ++ joined
    if path = "" then "." else path

/-! ## `revise_block` and `revise_patch` (utils.py lines 234-311)

The project directory is modelled as a partial map from the path used to
open a file to its raw content (`fs : String → Option String`); `none`
models any failure of `open` (the `except` at line 265). -/

/-- Indices of lines starting a hunk: Python `range(2, len(lines))`
restricted to lines starting with `@@`. -/
def hunkStarts (lines : List String) : List Nat :=
  (List.range lines.length).filter
    (fun n => decide (2 ≤ n) && pyStartsWith ((lines.get? n).getD "") "@@")

/-- Consecutive `[start, next)` segments from a list of start indices, the
last segment extending to `len`. -/
def segmentsOf : List Nat → Nat → List (Nat × Nat)
  | [], _ => []
  | [s], len => [(s, len)]
  | s :: s2 :: rest, len => (s, s2) :: segmentsOf (s2 :: rest) len

/-- Python `lines[a:b]` for `0 ≤ a ≤ b`. -/
def sliceSeg (lines : List String) (seg : Nat × Nat) : List String :=
  (lines.take seg.2).drop seg.1

/-- Lean model of `revise_block` (utils.py lines 234-284): fix the two file
header lines, read the real file, and revise every hunk of the block.  The
`assert` at line 251 and any error from `revise_hunk` are uncaught
(`Except.error`); a failed file read returns the block unchanged. -/
def revise_block (fs : String → Option String) (lines : List String)
    (revise_context : Bool) : Except Unit (List String × Bool) :=
  match lines.get? 0, lines.get? 1 with
  | some l0, some l1 =>
    let pa := match reCaptureLine "--- a/" l0 with
      | some p => (p, normpath p)
      | none => (l0, l0)
    let pb := match reCaptureLine "+++ b/" l1 with
      | some p => (p, normpath p)
      | none => (l1, l1)
    let blockFixed := decide (pa.1 ≠ pa.2) || decide (pb.1 ≠ pb.2)
    if (pa.1 = pb.1 ∧ pa.2 = pb.2) ∨ pa.2 = "--- /dev/null" ∨ pb.2 = "--- /dev/null" then
      let fixedHeader := [pyReplace ("--- a/" ++ pa.2) "a/--- " "",
                          pyReplace ("+++ b/" ++ pb.2) "b/--- " ""]
      match fs pa.1 with
      | none => .ok (lines, false)
      | some content =>
        let fileContent := (pySplitlines content).map rstripNl
        let segs := segmentsOf (hunkStarts lines) lines.length
        match segs.mapM (fun seg => revise_hunk (sliceSeg lines seg) fileContent revise_context) with
        | .error _ => .error ()
        | .ok hunks =>
          .ok (fixedHeader ++ hunks.map Prod.fst, blockFixed || hunks.any Prod.snd)
    else .error ()
  | _, _ => .error ()

/-- Indices of lines starting a file block in `revise_patch`. -/
def blockStarts (lines : List String) : List Nat :=
  (List.range lines.length).filter
    (fun n => pyStartsWith ((lines.get? n).getD "") "--- a/"
      || pyStartsWith ((lines.get? n).getD "") "--- /dev/null")

/-- Body of `revise_patch` before its catch-all `except` (lines 286-306). -/
def revisePatchCore (fs : String → Option String) (patch : String)
    (revise_context : Bool) : Except Unit (String × Bool) :=
  let lines := pySplitlines patch
  let segs := segmentsOf (blockStarts lines) lines.length
  match segs.mapM (fun seg => revise_block fs (sliceSeg lines seg) revise_context) with
  | .error _ => .error ()
  | .ok blocks =>
    .ok (joinSep "\n" (blocks.map Prod.fst).flatten ++ "\n", blocks.any Prod.snd)

/-- Lean model of `revise_patch` (utils.py lines 145-311): any exception
makes it return the input patch unmodified with `fixed = False`. -/
def revise_patch (fs : String → Option String) (patch : String)
    (revise_context : Bool) : String × Bool :=
  match revisePatchCore fs patch revise_context with
  | .ok r => r
  | .error _ => (patch, false)

/-! ## `split_patch` (utils.py lines 314-402)

The generator is modelled as the list of yielded units together with a flag
recording whether an exception interrupted it (`splitPatchE`); the
function as observed by callers (`split_patch`) returns the yielded
prefix — the catch-all `except` at line 398 swallows the exception. -/

/-- File-path denylist (utils.py lines 10-32). -/
def blacklist : List String :=
  [".rst", ".yaml", ".yml", ".md", ".tcl", "CHANGES", "ANNOUNCE", "NEWS",
   ".pem", ".js", ".sha1", ".sha256", ".uuid", ".test", "manifest", ".xml",
   "_test.go", ".json", ".golden", ".txt", ".mdx"]

/-- Lean model of the inner generator `split_block` (lines 329-353): one
unit per hunk, each re-prefixed with the two file header lines.  Accessing
`lines[1]` of a block with fewer than two lines raises (`Except.error`). -/
def splitBlockE (seg : List String) : Except Unit (List String) :=
  match seg.get? 0, seg.get? 1 with
  | some l0, some l1 =>
    let segs := segmentsOf (hunkStarts seg) seg.length
    .ok (segs.map (fun s => l0 ++ "\n" ++ l1 ++ "\n" ++ joinSep "\n" (sliceSeg seg s)))
  | _, _ => .error ()

/-- The main loop of `split_patch` (lines 358-396) as a fold over line
indices.  State: current `last_line` (with the Python sentinels `-1` and
`-2`), the commit `message`, and the units yielded so far.  The second
component of the result records whether the loop was interrupted by an
exception (after which no further unit is yielded). -/
def splitGo (lines : List String) (flag_commit : Bool) :
    List Nat → Int → String → List String → List String × Bool
  | [], lastLine, message, acc =>
    if 0 ≤ lastLine then
      match splitBlockE (lines.drop lastLine.toNat) with
      | .error _ => (acc, true)
      | .ok units => (acc ++ units.map (fun x => message ++ x), false)
    else (acc, false)
  | n :: rest, lastLine, message, acc =>
    let line := (lines.get? n).getD ""
    if pyStartsWith line "--- a/" then
      let prev : Except Unit (List String) :=
        if 0 ≤ lastLine then
          let seg := if flag_commit then pySlice lines lastLine.toNat ((n : Int) - 2)
            else pySlice lines lastLine.toNat (n : Int)
          (splitBlockE seg).map (fun units => acc ++ units.map (fun x => message ++ x))
        else .ok acc
      match prev with
      | .error _ => (acc, true)
      | .ok acc2 =>
        let message2 := if lastLine = -1 ∧ flag_commit then joinSep "\n" (lines.take (n - 2))
          else message
        let lastLine2 : Int := if blacklist.any (fun b => pyEndsWith line b) then -2 else (n : Int)
        splitGo lines flag_commit rest lastLine2 message2 acc2
    else if pyStartsWith line "--- /dev/null" then
      let prev : Except Unit (List String) :=
        if 0 ≤ lastLine then
          let seg := if flag_commit then pySlice lines lastLine.toNat ((n : Int) - 3)
            else pySlice lines lastLine.toNat (n : Int)
          (splitBlockE seg).map (fun units => acc ++ units.map (fun x => message ++ x))
        else .ok acc
      match prev with
      | .error _ => (acc, true)
      | .ok acc2 =>
        let message2 := if lastLine = -1 ∧ flag_commit then joinSep "\n" (lines.take (n - 3))
          else message
        match lines.get? (n + 1) with
        | none => (acc2, true)
        | some nxt =>
          let lastLine2 : Int := if blacklist.any (fun b => pyEndsWith nxt b) then -2 else (n : Int)
          splitGo lines flag_commit rest lastLine2 message2 acc2
    else splitGo lines flag_commit rest lastLine message acc

/-- The generator run of `split_patch`: yielded units plus the
interrupted-by-exception flag. -/
def splitPatchE (patch : String) (flag_commit : Bool) : List String × Bool :=
  let lines := pySplitlines patch
  splitGo lines flag_commit (List.range lines.length) (-1) "" []

/-- Lean model of `split_patch` as observed by its caller: the yielded
units; an exception ends the sequence early but never escapes. -/
def split_patch (patch : String) (flag_commit : Bool) : List String :=
  (splitPatchE patch flag_commit).1

/-! ## `find_most_similar_files` (utils.py lines 35-65)

`os.walk` is modelled by its resulting `(filename, relative_path)` pairs in
walk order.  Python's `list.sort` is stable, which the insertion sort below
reproduces. -/

/-- Stable insertion of one scored path into a distance-sorted list. -/
def insertByDist (x : Nat × String) : List (Nat × String) → List (Nat × String)
  | [] => [x]
  | y :: ys => if y.1 < x.1 then y :: insertByDist x ys else x :: y :: ys

/-- Stable sort by distance (Python `similarity_list.sort(key=lambda x: x[0])`). -/
def sortByDist (l : List (Nat × String)) : List (Nat × String) :=
  l.foldr insertByDist []

/-- Lean model of `find_most_similar_files`: the five walked paths whose
filenames have minimal edit distance to the target filename. -/
def find_most_similar_files (target_filename : String)
    (walk : List (String × String)) : List String :=
  let sims := walk.map (fun fr => (levDist target_filename fr.1, fr.2))
  ((sortByDist sims).take 5).map Prod.snd

/-! ## `Project._apply_file_move_handling` (project.py lines 356-427)

External collaborators are modelled as oracles: the `git diff
--diff-filter=R` output (`fileDiff`), the symbol index (`locateSymbol`),
the repository walk (`walkFiles`) and the recursive `_apply_hunk` retry
(`applyHunk`, returning the textual outcome whose success is detected by
the substring `"successfully"`, exactly as the Python code does). -/

/-- Oracles for the collaborators of `_apply_file_move_handling`. -/
structure MoveEnv where
  fileDiff : String
  locateSymbol : String → List (String × Nat)
  walkFiles : List (String × String)
  applyHunk : String → String

/-- Python `path.split("/")[-1]`. -/
def basename (p : String) : String := (pySplitOn p '/').getLastD ""

/-- A regex `\w` character (ASCII). -/
def isWordChar (c : Char) : Bool := c.isAlpha || c.isDigit || c = '_'

/-- First match of `\b\w+(?=\s*[{\(])` (project.py line 396): the first
maximal identifier run that is followed, after optional whitespace, by a
brace or parenthesis. -/
def symbolScan : List Char → Bool → Option String
  | [], _ => none
  | c :: cs, prevWord =>
    if isWordChar c && !prevWord then
      let run := (c :: cs).takeWhile isWordChar
      let rest := (c :: cs).dropWhile isWordChar
      let afterWS := rest.dropWhile pyIsSpace
      if afterWS.head? = some '{' ∨ afterWS.head? = some '(' then some ⟨run⟩
      else symbolScan cs (isWordChar c)
    else symbolScan cs (isWordChar c)

/-- The candidate-retry loop of `_apply_file_move_handling`
(lines 414-423): try each candidate path in order, first success wins;
otherwise accumulate the failure outputs into the fallback report. -/
def tryApplyLoop (env : MoveEnv) (missing old_patch : String)
    (allPaths : List String) : List String → String → String
  | [], ret =>
    "The target file has been moved, here is possible file paths:"
      ++ pyReprList allPaths ++ "\n" ++ ret
  | fp :: rest, ret =>
    let r := env.applyHunk (pyReplace old_patch missing fp)
    if pyIn "successfully" r then
      missing ++ " has been moved to " ++ fp ++ ". Please use --- a/" ++ fp
        ++ " in your patch.\n"
    else tryApplyLoop env missing old_patch allPaths rest (ret ++ r)

/-- Lean model of `Project._apply_file_move_handling` (lines 356-427). -/
def apply_file_move_handling (env : MoveEnv) (old_patch : String) :
    Except Unit String :=
  match reCaptureLine "--- a/" old_patch with
  | none => .error ()
  | some missing =>
    let step1 : Except Unit (List String) :=
      if env.fileDiff = "" then .ok []
      else
        match (pySplitOn env.fileDiff '\t').get? 1 with
        | none => .error ()
        | some p => .ok [p]
    match step1 with
    | .error _ => .error ()
    | .ok filePaths0 =>
      let filePaths :=
        if filePaths0 = [] then
          match (pySplitOn old_patch '\n').get? 2 with
          | none => find_most_similar_files (basename missing) env.walkFiles
          | some atLine =>
            match symbolScan atLine.data false with
            | none => find_most_similar_files (basename missing) env.walkFiles
            | some sym =>
              let locs := env.locateSymbol sym
              if locs = [] then find_most_similar_files (basename missing) env.walkFiles
              else locs.map Prod.fst
        else filePaths0
      .ok (tryApplyLoop env missing old_patch filePaths filePaths "")

/-! ## `Project._run_testcase` and `_validate` (project.py lines 600-727)

Session flags are the fields of `ProjState`; the compile and PoC stages and
the test subprocess are oracles, since they call external processes. -/

/-- The mutable session flags of a backport job. -/
structure ProjState where
  all_hunks_applied_succeeded : Bool
  compile_succeeded : Bool
  testcase_succeeded : Bool
  poc_succeeded : Bool
  context_mismatch_times : Nat
  round_succeeded : Bool
deriving DecidableEq, Repr

/-- Outcome of the test subprocess: wall-clock timeout, or an exit with a
return code and captured output. -/
inductive ProcOutcome where
  | timeout
  | finished (returncode : Int) (output : String)

/-- Shared pass message of the testcase stage. -/
def testPassMsg : String :=
  "The patched source code could pass TESTCASE! I really thank you for your great efforts.\n"

/-- Timeout message of the testcase stage. -/
def testTimeoutMsg : String :=
  "The TESTCASE process of the patched source code is timeout. "

/-- Text of the testcase failure report before the captured output. -/
def testFailMsgPre : String :=
  "The patched program could not pass the testcase. Next I\x27ll give you the error message during running the testcase, and you should modify the previous error patch according to this section. Here is the error message:\n"

/-- Text of the testcase failure report after the captured output. -/
def testFailMsgPost : String :=
  "\nPlease revise the patch with above error message. Or use tools `locate_symbol` and `viewcode` to re-check patch-related code snippet. Please DO NOT send the same patch to me, repeated patches will harm the lives of others.\n"

/-- Failure message of the testcase stage, embedding the captured output. -/
def testFailMsg (output : String) : String :=
  testFailMsgPre ++ output ++ testFailMsgPost

/-- Lean model of `Project._run_testcase` (lines 600-645). -/
def run_testcase (testShExists : Bool) (outcome : ProcOutcome) (st : ProjState) :
    ProjState × String :=
  if !testShExists then
    ({ st with testcase_succeeded := true }, testPassMsg)
  else
    match outcome with
    | .timeout => (st, testTimeoutMsg)
    | .finished rc output =>
      if rc ≠ 0 then ({ st with compile_succeeded := false }, testFailMsg output)
      else ({ st with testcase_succeeded := true }, testPassMsg)

/-- The compile step of `_validate` (lines 714-717): run `_compile_patch`
(an oracle, since it spawns the build) when the compiled flag is unset,
passing the force flag `context_mismatch_times >= 1`, then bump the
counter. -/
def validateCompileStage (compile_patch : Bool → ProjState → ProjState × String)
    (st : ProjState) : ProjState × String :=
  if !st.compile_succeeded then
    let sr := compile_patch (decide (1 ≤ st.context_mismatch_times)) st
    ({ sr.1 with context_mismatch_times := sr.1.context_mismatch_times + 1 }, sr.2)
  else (st, "")

/-- The testcase step of `_validate` (lines 718-719): entered only when the
compiled flag is set and the testcase flag is not. -/
def validateTestStage (testShExists : Bool) (outcome : ProcOutcome)
    (st : ProjState) : ProjState × String :=
  if st.compile_succeeded && !st.testcase_succeeded then
    run_testcase testShExists outcome st
  else (st, "")

/-- The PoC step of `_validate` (lines 720-726). -/
def validatePocStage (run_poc : ProjState → ProjState × String)
    (st : ProjState) : ProjState × String :=
  if st.compile_succeeded && st.testcase_succeeded && !st.poc_succeeded then
    run_poc st
  else (st, "")

/-- Lean model of the `all_hunks_applied_succeeded` branch of
`Project._validate` (lines 712-727): compile, then testcase, then PoC, each
re-reading the flags mutated by the previous step. -/
def validate_applied (compile_patch : Bool → ProjState → ProjState × String)
    (testShExists : Bool) (outcome : ProcOutcome)
    (run_poc : ProjState → ProjState × String) (st : ProjState) :
    ProjState × String :=
  ((validatePocStage run_poc
      (validateTestStage testShExists outcome (validateCompileStage compile_patch st).1).1).1,
   (validateCompileStage compile_patch st).2
     ++ (validateTestStage testShExists outcome (validateCompileStage compile_patch st).1).2
     ++ (validatePocStage run_poc
          (validateTestStage testShExists outcome (validateCompileStage compile_patch st).1).1).2)

/-! ## Characterization of the sliding-window scan -/

/-- One pure update step of the phase-1 scan when `dline_flag` is off. -/
def fmsbStep (pattern main : List String) (p_len : Nat)
    (st : Option Nat × Nat) (i : Nat) : Option Nat × Nat :=
  if ltInf (windowDist pattern main p_len i) st.1 then
    (some (windowDist pattern main p_len i), i + 1)
  else st

theorem fmsbScan_false (pattern main : List String) (p_len : Nat) :
    ∀ (l : List Nat) (st : Option Nat × Nat),
      fmsbScan pattern main p_len false l st =
        .ok (l.foldl (fmsbStep pattern main p_len) st) := by
  intro l
  induction l with
  | nil => intro st; rfl
  | cons i rest ih =>
    intro st
    simp only [fmsbScan, fmsbStep, List.foldl_cons, Bool.false_eq_true, if_false]
    by_cases h : ltInf (windowDist pattern main p_len i) st.1 = true
    · rw [if_pos h, if_pos h, ih]
    · rw [if_neg h, if_neg h, ih]

theorem foldl_fmsbStep_range (pattern main : List String) (p_len : Nat) :
    ∀ n : Nat, 0 < n →
      ∃ i0, i0 < n ∧
        (List.range n).foldl (fmsbStep pattern main p_len) (none, 1) =
          (some (windowDist pattern main p_len i0), i0 + 1) ∧
        (∀ j, j < n → windowDist pattern main p_len i0 ≤ windowDist pattern main p_len j) ∧
        (∀ j, j < i0 → windowDist pattern main p_len i0 < windowDist pattern main p_len j) := by
  intro n
  induction n with
  | zero => intro h; omega
  | succ m ih =>
    intro _
    by_cases hm : 0 < m
    · obtain ⟨i0, hlt, heq, hmin, hstrict⟩ := ih hm
      rw [List.range_succ, List.foldl_append, heq]
      by_cases hnew : windowDist pattern main p_len m < windowDist pattern main p_len i0
      · refine ⟨m, by omega, ?_, ?_, ?_⟩
        · simp only [List.foldl_cons, List.foldl_nil, fmsbStep, ltInf]
          rw [if_pos (by simpa using hnew)]
        · intro j hj
          rcases Nat.lt_succ_iff_lt_or_eq.mp hj with hj' | hj'
          · exact le_trans (le_of_lt hnew) (hmin j hj')
          · subst hj'; exact le_refl _
        · intro j hj
          exact lt_of_lt_of_le hnew (hmin j hj)
      · refine ⟨i0, by omega, ?_, ?_, hstrict⟩
        · simp only [List.foldl_cons, List.foldl_nil, fmsbStep, ltInf]
          rw [if_neg (by simpa using hnew)]
        · intro j hj
          rcases Nat.lt_succ_iff_lt_or_eq.mp hj with hj' | hj'
          · exact hmin j hj'
          · subst hj'; exact le_of_not_lt hnew
    · have hm0 : m = 0 := by omega
      subst hm0
      refine ⟨0, by omega, ?_, ?_, ?_⟩
      · simp [List.range_succ, List.range_zero, fmsbStep, ltInf]
      · intro j hj
        have : j = 0 := by omega
        subst this; exact le_refl _
      · intro j hj; omega

/-- Window validity `j + p_len ≤ main.length` is the same as membership in
the Python loop range. -/
theorem lt_numWindows_iff (main : List String) (p_len j : Nat)
    (h : p_len ≤ main.length) :
    j < numWindows main p_len ↔ j + p_len ≤ main.length := by
  unfold numWindows; omega

theorem fmsbPhase1_false_char (pattern main : List String) (p_len : Nat)
    (h : p_len ≤ main.length) :
    ∃ i0, i0 + p_len ≤ main.length ∧
      fmsbPhase1 pattern main p_len false =
        .ok (some (windowDist pattern main p_len i0), i0 + 1) ∧
      (∀ j, j + p_len ≤ main.length →
        windowDist pattern main p_len i0 ≤ windowDist pattern main p_len j) ∧
      (∀ j, j < i0 → windowDist pattern main p_len i0 < windowDist pattern main p_len j) := by
  have hpos : 0 < numWindows main p_len := by unfold numWindows; omega
  obtain ⟨i0, hlt, heq, hmin, hstrict⟩ :=
    foldl_fmsbStep_range pattern main p_len (numWindows main p_len) hpos
  refine ⟨i0, (lt_numWindows_iff main p_len i0 h).mp hlt, ?_, ?_, hstrict⟩
  · rw [fmsbPhase1, fmsbScan_false, heq]
  · intro j hj
    exact hmin j ((lt_numWindows_iff main p_len j h).mpr hj)

/-- When the candidate has no window of the pattern's size, phase 1 leaves
the running minimum at infinity. -/
theorem fmsbPhase1_no_window (pattern main : List String) (p_len : Nat)
    (h : main.length < p_len) :
    fmsbPhase1 pattern main p_len false = .ok (none, 1) := by
  have : numWindows main p_len = 0 := by unfold numWindows; omega
  rw [fmsbPhase1, this]
  rfl

/-- The offset pass terminates normally whenever every index it may visit
is inside the pattern. -/
theorem offsetScan_ok (pattern main : List String) (lineno : Nat) :
    ∀ l : List Nat, (∀ i ∈ l, i < pattern.length) →
      ∃ r, offsetScan pattern main lineno l = .ok r := by
  intro l
  induction l with
  | nil => intro _; exact ⟨(lineno : Int), rfl⟩
  | cons i rest ih =>
    intro h
    have hi : i < pattern.length := h i (List.mem_cons_self i rest)
    obtain ⟨pi, hpi⟩ : ∃ pi, pattern.get? i = some pi := by
      rw [List.get?_eq_get hi]; exact ⟨_, rfl⟩
    simp only [offsetScan, hpi]
    by_cases hshort : (pyStrip pi).data.length < 3
    · rw [if_pos hshort]
      exact ih (fun k hk => h k (List.mem_cons_of_mem i hk))
    · rw [if_neg hshort]
      cases hfold : jRange.foldl (updOffset pi main lineno i) none with
      | some off => exact ⟨(lineno : Int) + off, rfl⟩
      | none => exact ih (fun k hk => h k (List.mem_cons_of_mem i hk))

theorem offsetFix_ok (pattern main : List String) (p_len lineno : Nat)
    (h : p_len ≤ pattern.length) :
    ∃ r, offsetFix pattern main p_len lineno = .ok r := by
  unfold offsetFix
  exact offsetScan_ok pattern main lineno (List.range p_len)
    (fun i hi => lt_of_lt_of_le (List.mem_range.mp hi) h)

/-! ## Claim C1 -/

/-- The behaviour claim C1 ascribes to the alignment function: the returned
pair is the 1-based start of a minimum-distance window (the earliest on
ties) together with the minimum distance itself. -/
def c1ClaimedBehaviour (pattern main : List String) (p_len : Nat) : Prop :=
  ∃ i0, i0 + p_len ≤ main.length ∧
    (∀ j, j + p_len ≤ main.length →
      windowDist pattern main p_len i0 ≤ windowDist pattern main p_len j) ∧
    (∀ j, j < i0 → windowDist pattern main p_len i0 < windowDist pattern main p_len j) ∧
    find_most_similar_block pattern main p_len false =
      .ok (((i0 + 1 : Nat) : Int), some (windowDist pattern main p_len i0))

/-- Claim C1 is false as stated: on `pattern = ["hello"]` and
`main = ["hellox", " hello "]` the unique minimum-distance window is the
first one (distance 1), but the offset-correction pass then shifts the
returned start to `0`, which is not the 1-based start of any window. -/
theorem c1_counterexample : ¬ c1ClaimedBehaviour ["hello"] ["hellox", " hello "] 1 := by
  rintro ⟨i0, hwin, _, _, heq⟩
  have hval : find_most_similar_block ["hello"] ["hellox", " hello "] 1 false =
      .ok ((0 : Int), some 1) := rfl
  rw [hval] at heq
  have h1 : ((i0 + 1 : Nat) : Int) = 0 := (Prod.mk.injEq _ _ _ _).mp (Except.ok.inj heq) |>.1.symm ▸ rfl
  omega

/-- Amended claim C1: phase 1 of the alignment function computes the
minimum window distance and the earliest window attaining it; the returned
distance is exactly that minimum, while the returned start index is the
earliest minimizing window's 1-based start as subsequently shifted by the
offset-correction pass (and so need not start a minimizing window). -/
theorem c1_amended (pattern main : List String) (p_len : Nat)
    (hwin : p_len ≤ main.length) (hpat : p_len ≤ pattern.length) :
    ∃ i0, i0 + p_len ≤ main.length ∧
      (∀ j, j + p_len ≤ main.length →
        windowDist pattern main p_len i0 ≤ windowDist pattern main p_len j) ∧
      (∀ j, j < i0 → windowDist pattern main p_len i0 < windowDist pattern main p_len j) ∧
      ∃ b, offsetFix pattern main p_len (i0 + 1) = .ok b ∧
        find_most_similar_block pattern main p_len false =
          .ok (b, some (windowDist pattern main p_len i0)) := by
  obtain ⟨i0, hv, heq, hmin, hstrict⟩ := fmsbPhase1_false_char pattern main p_len hwin
  obtain ⟨b, hb⟩ := offsetFix_ok pattern main p_len (i0 + 1) hpat
  refine ⟨i0, hv, hmin, hstrict, b, hb, ?_⟩
  rw [find_most_similar_block, heq]
  simp only [Bool.false_eq_true, if_false, hb]

/-- Witness for the amended claim C1 at a concrete aligned input. -/
theorem c1_amended_witness :
    ∃ i0, i0 + 1 ≤ (["u", "hello"] : List String).length ∧
      (∀ j, j + 1 ≤ (["u", "hello"] : List String).length →
        windowDist ["hello"] ["u", "hello"] 1 i0 ≤ windowDist ["hello"] ["u", "hello"] 1 j) ∧
      (∀ j, j < i0 →
        windowDist ["hello"] ["u", "hello"] 1 i0 < windowDist ["hello"] ["u", "hello"] 1 j) ∧
      ∃ b, offsetFix ["hello"] ["u", "hello"] 1 (i0 + 1) = .ok b ∧
        find_most_similar_block ["hello"] ["u", "hello"] 1 false =
          .ok (b, some (windowDist ["hello"] ["u", "hello"] 1 i0)) :=
  c1_amended ["hello"] ["u", "hello"] 1 (by decide) (by decide)

/-! ## Claim C10 -/

/-- Claim C10: when the pattern has exactly the announced length and the
candidate line list is shorter than it (so no window of that size exists),
the alignment function returns normally and reports the infinite distance
(`none` models Python's `float("inf")`). -/
theorem c10_no_window_infinite_distance (pattern main : List String) (p_len : Nat)
    (hpat : pattern.length = p_len) (hshort : main.length < p_len) :
    ∃ b, find_most_similar_block pattern main p_len false = .ok (b, none) := by
  obtain ⟨r, hr⟩ := offsetFix_ok pattern main p_len 1 (le_of_eq hpat.symm)
  refine ⟨r, ?_⟩
  rw [find_most_similar_block, fmsbPhase1_no_window pattern main p_len hshort]
  simp only [Bool.false_eq_true, if_false, hr]

/-- Witness for claim C10 on a candidate file shorter than the pattern. -/
theorem c10_witness :
    ∃ b, find_most_similar_block ["abc", "def"] ["x"] 2 false = .ok (b, none) :=
  c10_no_window_infinite_distance ["abc", "def"] ["x"] 2 (by decide) (by decide)

/-! ## Claim C4 -/

/-- The offsets the wording of claim C4 collects: for each expected line
with at least 3 non-whitespace characters, every `j ∈ [-5, 5]` whose file
line (at index `lineno - 1 + j`) trim-matches it, recorded as the window
shift `j - i`. -/
def c4AllOffsets (pattern main : List String) (p_len lineno : Nat) : List Int :=
  (List.range p_len).flatMap (fun i =>
    match pattern.get? i with
    | none => []
    | some pi =>
      if 3 ≤ (pi.data.filter (fun c => !(pyIsSpace c))).length then
        jRange.filterMap (fun j =>
          if 0 ≤ (lineno : Int) - 1 + j then
            match main.get? ((lineno : Int) - 1 + j).toNat with
            | some s => if pyStrip pi = pyStrip s then some (j - (i : Int)) else none
            | none => none
          else none)
      else [])

/-- Earliest offset of minimal magnitude in a list. -/
def minAbsOffset (l : List Int) : Option Int :=
  l.foldl (fun acc o =>
    match acc with
    | none => some o
    | some m => if o.natAbs < m.natAbs then some o else acc) none

/-- The behaviour claim C4 ascribes to the offset-correction refinement:
the returned start is the chosen (earliest minimum-distance) window start
shifted by the smallest-magnitude offset found across all expected lines. -/
def c4ClaimedBehaviour (pattern main : List String) (p_len : Nat) : Prop :=
  ∃ i0, i0 + p_len ≤ main.length ∧
    (∀ j, j + p_len ≤ main.length →
      windowDist pattern main p_len i0 ≤ windowDist pattern main p_len j) ∧
    (∀ j, j < i0 → windowDist pattern main p_len i0 < windowDist pattern main p_len j) ∧
    find_most_similar_block pattern main p_len false =
      .ok (((i0 + 1 : Nat) : Int) + (minAbsOffset (c4AllOffsets pattern main p_len (i0 + 1))).getD 0,
        some (windowDist pattern main p_len i0))

/-- Claim C4 is false as stated: on `pattern = ["aaax", "bbbx"]` and
`main = ["aaaxQ", "bbbx", "aaax"]` the chosen window starts at line 1;
across all expected lines the smallest-magnitude offset is `0` (from the
second line, `"bbbx"`, matching at its aligned place), so the claim
predicts start 1 — but the code breaks at the first expected line that has
any match (`"aaax"`, matching only at wrapped offset `-1`) and returns
start 0. -/
theorem c4_counterexample :
    ¬ c4ClaimedBehaviour ["aaax", "bbbx"] ["aaaxQ", "bbbx", "aaax"] 2 := by
  rintro ⟨i0, hv, hmin, _, heq⟩
  have hi0 : i0 = 0 ∨ i0 = 1 := by
    simp only [List.length_cons, List.length_nil] at hv
    omega
  rcases hi0 with h0 | h1
  · subst h0
    have hval : find_most_similar_block ["aaax", "bbbx"] ["aaaxQ", "bbbx", "aaax"] 2 false =
        .ok ((0 : Int), some 1) := rfl
    rw [hval] at heq
    exact absurd (congrArg Prod.fst (Except.ok.inj heq)) (by decide)
  · subst h1
    exact absurd (hmin 0 (by decide)) (by decide)

/-- Whether the file line at Python index `lineno - 1 + j` trim-matches the
expected line `pi`. -/
def offMatchPred (pi : String) (main : List String) (lineno : Nat) (j : Int) : Bool :=
  match pyIdx main ((lineno : Int) - 1 + j) with
  | some s => decide (pyStrip pi = pyStrip s)
  | none => false

/-- Keep the earliest smallest-magnitude shift `j - i`. -/
def shiftStep (i : Nat) (acc : Option Int) (j : Int) : Option Int :=
  match acc with
  | none => some (j - (i : Int))
  | some o => if (j - (i : Int)).natAbs < o.natAbs then some (j - (i : Int)) else acc

/-- Trimmed-match positions of one expected line around the window start:
the `j ∈ [-5, 5]` whose Python-indexed candidate line trim-matches it. -/
def lineMatches (pi : String) (main : List String) (lineno : Nat) : List Int :=
  jRange.filter (offMatchPred pi main lineno)

/-- Earliest smallest-magnitude shift `j - i` among the matches of expected
line `i`. -/
def minAbsShift (i : Nat) (js : List Int) : Option Int :=
  js.foldl (shiftStep i) none

/-- The offset pass as the amended claim C4 words it: visit the expected
lines in order, skip those with fewer than 3 stripped characters, and the
first line having any trimmed match within ±5 (Python-indexed) of the
window start fixes the shift — the smallest-magnitude `j - i` among that
line's matches — and stops the search. -/
def offsetScanSpec (pattern main : List String) (lineno : Nat) :
    List Nat → Except Unit Int
  | [] => .ok (lineno : Int)
  | i :: rest =>
    match pattern.get? i with
    | none => .error ()
    | some pi =>
      if (pyStrip pi).data.length < 3 then offsetScanSpec pattern main lineno rest
      else
        match minAbsShift i (lineMatches pi main lineno) with
        | some off => .ok ((lineno : Int) + off)
        | none => offsetScanSpec pattern main lineno rest

/-- Spec-level restatement of the whole offset-correction pass. -/
def offsetFixSpec (pattern main : List String) (p_len lineno : Nat) : Except Unit Int :=
  offsetScanSpec pattern main lineno (List.range p_len)

/-- One `updOffset` step is the shift update guarded by the match test. -/
theorem updOffset_eq_guarded (pi : String) (main : List String) (lineno i : Nat)
    (acc : Option Int) (j : Int) :
    updOffset pi main lineno i acc j =
      if offMatchPred pi main lineno j then shiftStep i acc j else acc := by
  unfold updOffset offMatchPred shiftStep
  cases pyIdx main ((lineno : Int) - 1 + j) with
  | none => rfl
  | some s =>
    by_cases hs : pyStrip pi = pyStrip s
    · simp only [hs, if_pos, decide_True]
    · simp only [hs, if_neg, decide_False, Bool.false_eq_true, if_false]

/-- Fusion of the match test into the fold: folding `updOffset` over any
index list is the same as folding the pure shift-update over the matching
indices only. -/
theorem foldl_updOffset_eq_filter (pi : String) (main : List String) (lineno i : Nat) :
    ∀ (l : List Int) (acc : Option Int),
      l.foldl (updOffset pi main lineno i) acc =
        (l.filter (offMatchPred pi main lineno)).foldl (shiftStep i) acc := by
  intro l
  induction l with
  | nil => intro acc; rfl
  | cons j rest ih =>
    intro acc
    rw [List.foldl_cons, List.filter_cons, updOffset_eq_guarded]
    by_cases hp : offMatchPred pi main lineno j = true
    · rw [if_pos hp, if_pos hp, List.foldl_cons, ih]
    · rw [if_neg hp, if_neg hp, ih]

theorem fold_jRange_eq_minAbsShift (pi : String) (main : List String) (lineno i : Nat) :
    jRange.foldl (updOffset pi main lineno i) none =
      minAbsShift i (lineMatches pi main lineno) := by
  rw [foldl_updOffset_eq_filter]
  rfl

theorem offsetScan_eq_spec (pattern main : List String) (lineno : Nat) :
    ∀ l : List Nat,
      offsetScan pattern main lineno l = offsetScanSpec pattern main lineno l := by
  intro l
  induction l with
  | nil => rfl
  | cons i rest ih =>
    simp only [offsetScan, offsetScanSpec]
    cases pattern.get? i with
    | none => rfl
    | some pi =>
      simp only
      by_cases hshort : (pyStrip pi).data.length < 3
      · rw [if_pos hshort, if_pos hshort, ih]
      · rw [if_neg hshort, if_neg hshort, fold_jRange_eq_minAbsShift]
        cases minAbsShift i (lineMatches pi main lineno) with
        | none => exact ih
        | some off => rfl

/-- Amended claim C4: the offset-correction refinement equals its corrected
description — the expected lines are visited in order, lines with fewer
than 3 whitespace-stripped characters are skipped, and the first line with
any exact trimmed-text match within ±5 (Python-indexed) of the chosen
window start shifts the start by the smallest-magnitude `j - i` among that
line's own matches, after which the search stops; later expected lines are
never consulted. -/
theorem c4_amended (pattern main : List String) (p_len lineno : Nat) :
    offsetFix pattern main p_len lineno = offsetFixSpec pattern main p_len lineno :=
  offsetScan_eq_spec pattern main lineno (List.range p_len)

/-! ## Claim C9 -/

theorem append_newline_inj :
    ∀ (xd yd r r' : List Char), '\n' ∉ xd → '\n' ∉ yd →
      xd ++ '\n' :: r = yd ++ '\n' :: r' → xd = yd ∧ r = r' := by
  intro xd
  induction xd with
  | nil =>
    intro yd r r' _ hy h
    cases yd with
    | nil => simpa using h
    | cons d yd' =>
      exfalso
      have hd : d = '\n' := by
        have := congrArg List.head? h
        simpa using this.symm
      exact hy (hd ▸ List.mem_cons_self d yd')
  | cons c xd' ih =>
    intro yd r r' hx hy h
    cases yd with
    | nil =>
      exfalso
      have hc : c = '\n' := by
        have := congrArg List.head? h
        simpa using this
      exact hx (hc ▸ List.mem_cons_self c xd')
    | cons d yd' =>
      simp only [List.cons_append, List.cons.injEq] at h
      obtain ⟨hcd, htail⟩ := h
      obtain ⟨h1, h2⟩ := ih yd' r r' (fun hm => hx (List.mem_cons_of_mem c hm))
        (fun hm => hy (List.mem_cons_of_mem d hm)) htail
      exact ⟨by rw [hcd, h1], h2⟩

/-- Joining newline-free lines with newlines is injective at fixed length. -/
theorem joinSep_nl_inj :
    ∀ (l1 l2 : List String), l1.length = l2.length →
      (∀ s ∈ l1, '\n' ∉ s.data) → (∀ s ∈ l2, '\n' ∉ s.data) →
      joinSep "\n" l1 = joinSep "\n" l2 → l1 = l2 := by
  intro l1
  induction l1 with
  | nil =>
    intro l2 hlen _ _ _
    cases l2 with
    | nil => rfl
    | cons y ys => simp at hlen
  | cons x xs ih =>
    intro l2 hlen h1 h2 hj
    cases l2 with
    | nil => simp at hlen
    | cons y ys =>
      cases xs with
      | nil =>
        cases ys with
        | nil => rw [show (joinSep "\n" [x]) = x from rfl,
            show (joinSep "\n" [y]) = y from rfl] at hj
                 exact hj ▸ rfl
        | cons y2 ys' => simp at hlen
      | cons x2 xs' =>
        cases ys with
        | nil => simp at hlen
        | cons y2 ys' =>
          have hx : joinSep "\n" (x :: x2 :: xs') = x ++ "\n" ++ joinSep "\n" (x2 :: xs') := rfl
          have hy : joinSep "\n" (y :: y2 :: ys') = y ++ "\n" ++ joinSep "\n" (y2 :: ys') := rfl
          rw [hx, hy] at hj
          have hdata := congrArg String.data hj
          simp only [String.data_append] at hdata
          have hdata' : x.data ++ '\n' :: (joinSep "\n" (x2 :: xs')).data =
              y.data ++ '\n' :: (joinSep "\n" (y2 :: ys')).data := by
            simpa [List.append_assoc] using hdata
          obtain ⟨hhead, htail⟩ := append_newline_inj x.data y.data _ _
            (h1 x (List.mem_cons_self x _)) (h2 y (List.mem_cons_self y _)) hdata'
          have hxy : x = y := String.ext hhead
          have hrest : x2 :: xs' = y2 :: ys' := by
            apply ih (y2 :: ys') (by simpa using hlen)
              (fun s hs => h1 s (List.mem_cons_of_mem x hs))
              (fun s hs => h2 s (List.mem_cons_of_mem y hs))
            exact String.ext htail
          rw [hxy, hrest]

/-- Running-offset values whose magnitude is at least 1 (or not yet set). -/
def smallAbs (acc : Option Int) : Prop :=
  acc = none ∨ ∃ o, acc = some o ∧ 1 ≤ o.natAbs

theorem updOffset_preserves_smallAbs (pi : String) (main : List String) (lineno : Nat)
    (j : Int) (hj : 1 ≤ j.natAbs) (acc : Option Int) (h : smallAbs acc) :
    smallAbs (updOffset pi main lineno 0 acc j) := by
  rw [updOffset_eq_guarded]
  by_cases hp : offMatchPred pi main lineno j = true
  · rw [if_pos hp]
    rcases h with h | ⟨o, ho, hoabs⟩
    · subst h
      exact Or.inr ⟨j - ((0 : Nat) : Int), rfl, by simpa using hj⟩
    · subst ho
      simp only [shiftStep]
      by_cases himp : (j - ((0 : Nat) : Int)).natAbs < o.natAbs
      · rw [if_pos himp]
        exact Or.inr ⟨j - ((0 : Nat) : Int), rfl, by simpa using hj⟩
      · rw [if_neg himp]
        exact Or.inr ⟨o, rfl, hoabs⟩
  · rw [if_neg hp]
    exact h

theorem foldl_updOffset_smallAbs (pi : String) (main : List String) (lineno : Nat) :
    ∀ (l : List Int), (∀ j ∈ l, 1 ≤ j.natAbs) → ∀ (acc : Option Int), smallAbs acc →
      smallAbs (l.foldl (updOffset pi main lineno 0) acc) := by
  intro l
  induction l with
  | nil => intro _ acc h; exact h
  | cons j rest ih =>
    intro hl acc h
    rw [List.foldl_cons]
    exact ih (fun k hk => hl k (List.mem_cons_of_mem j hk))
      _ (updOffset_preserves_smallAbs pi main lineno j (hl j (List.mem_cons_self j rest)) acc h)

theorem updOffset_at_zero (pi : String) (main : List String) (lineno : Nat)
    (m0 : String) (hidx : pyIdx main ((lineno : Int) - 1 + 0) = some m0)
    (hm : pyStrip pi = pyStrip m0) (acc : Option Int) (h : smallAbs acc) :
    updOffset pi main lineno 0 acc 0 = some 0 := by
  rw [updOffset_eq_guarded]
  have hp : offMatchPred pi main lineno 0 = true := by
    unfold offMatchPred
    rw [hidx]
    exact decide_eq_true hm
  rw [if_pos hp]
  rcases h with h | ⟨o, ho, hoabs⟩
  · subst h; simp [shiftStep]
  · subst ho
    simp only [shiftStep]
    rw [if_pos (by simp only [Nat.cast_zero, sub_zero, Int.natAbs_zero]; omega)]
    simp

theorem updOffset_keeps_zero (pi : String) (main : List String) (lineno : Nat)
    (j : Int) : updOffset pi main lineno 0 (some 0) j = some 0 := by
  rw [updOffset_eq_guarded]
  by_cases hp : offMatchPred pi main lineno j = true
  · rw [if_pos hp]
    simp [shiftStep]
  · rw [if_neg hp]

theorem foldl_updOffset_keeps_zero (pi : String) (main : List String) (lineno : Nat) :
    ∀ (l : List Int), l.foldl (updOffset pi main lineno 0) (some 0) = some 0 := by
  intro l
  induction l with
  | nil => rfl
  | cons j rest ih =>
    rw [List.foldl_cons, updOffset_keeps_zero]
    exact ih

/-- When the first expected line trim-matches the file line right at the
window start, the inner `j` loop settles on offset `0`. -/
theorem fold_jRange_zero (pi : String) (main : List String) (lineno : Nat)
    (m0 : String) (hidx : pyIdx main ((lineno : Int) - 1 + 0) = some m0)
    (hm : pyStrip pi = pyStrip m0) :
    jRange.foldl (updOffset pi main lineno 0) none = some 0 := by
  have hsplit : jRange = [-5, -4, -3, -2, -1] ++ 0 :: [1, 2, 3, 4, 5] := rfl
  rw [hsplit, List.foldl_append, List.foldl_cons]
  have h1 : smallAbs (([-5, -4, -3, -2, -1] : List Int).foldl (updOffset pi main lineno 0) none) :=
    foldl_updOffset_smallAbs pi main lineno _ (by decide) none (Or.inl rfl)
  rw [updOffset_at_zero pi main lineno m0 hidx hm _ h1]
  exact foldl_updOffset_keeps_zero pi main lineno _

theorem head?_take {α : Type} (l : List α) (n : Nat) (h : 0 < n) :
    (l.take n).head? = l.head? := by
  cases l with
  | nil => simp
  | cons a as =>
    cases n with
    | zero => omega
    | succ m => rfl

theorem head?_drop {α : Type} : ∀ (l : List α) (n : Nat), (l.drop n).head? = l.get? n := by
  intro l
  induction l with
  | nil => intro n; cases n <;> rfl
  | cons a as ih =>
    intro n
    cases n with
    | zero => rfl
    | succ m => exact ih m

/-- Amended claim C9: when the expected block is an exact copy of the
file's window at 1-based index `i`, alignment returns distance 0; and the
returned start index is exactly `i` provided the block occurs at no earlier
window, its first line has at least 3 whitespace-stripped characters, and
no file line contains a newline. -/
theorem c9_amended (main pattern : List String) (i len : Nat) (p0 : String)
    (hi : 1 ≤ i) (hwin : i - 1 + len ≤ main.length) (hlen : 0 < len)
    (hpat : pattern = (main.drop (i - 1)).take len)
    (hp0 : pattern.head? = some p0)
    (hp0len : 3 ≤ (pyStrip p0).data.length)
    (hnl : ∀ s ∈ main, '\n' ∉ s.data)
    (hearliest : ∀ j, j < i - 1 → (main.drop j).take len ≠ pattern) :
    find_most_similar_block pattern main len false = .ok ((i : Int), some 0) := by
  have hlenle : len ≤ main.length := by omega
  have hpatlen : pattern.length = len := by
    rw [hpat, List.length_take, List.length_drop]; omega
  have hd0 : windowDist pattern main len (i - 1) = 0 := by
    unfold windowDist
    rw [hpat]
    exact levDist_self _
  obtain ⟨i0, hv, hphase, hmin, hstrict⟩ := fmsbPhase1_false_char pattern main len hlenle
  have hdi0 : windowDist pattern main len i0 = 0 := by
    have := hmin (i - 1) hwin
    rw [hd0] at this
    omega
  have hwineq : (main.drop i0).take len = pattern := by
    have hjoin : joinSep "\n" ((main.drop i0).take len) = joinSep "\n" pattern :=
      eq_of_levDist_eq_zero hdi0
    apply joinSep_nl_inj
    · rw [List.length_take, List.length_drop, hpatlen]; omega
    · exact fun s hs => hnl s (List.drop_subset _ _ (List.take_subset _ _ hs))
    · intro s hs
      rw [hpat] at hs
      exact hnl s (List.drop_subset _ _ (List.take_subset _ _ hs))
    · exact hjoin
  have hi0 : i0 = i - 1 := by
    rcases Nat.lt_trichotomy i0 (i - 1) with hlt | heq | hgt
    · exact absurd hwineq (hearliest i0 hlt)
    · exact heq
    · exfalso
      have := hstrict (i - 1) hgt
      rw [hd0, hdi0] at this
      omega
  subst hi0
  have hphase' : fmsbPhase1 pattern main len false = .ok (some 0, i) := by
    rw [hphase, hdi0]
    congr 1
    rw [Prod.mk.injEq]
    exact ⟨rfl, by omega⟩
  have hg0 : pattern.get? 0 = some p0 := by
    cases pattern with
    | nil => simp at hp0
    | cons a l => simpa using hp0
  have hm0 : main.get? (i - 1) = some p0 := by
    rw [← head?_drop]
    rw [← head?_take (main.drop (i - 1)) len hlen]
    rw [← hpat]
    exact hp0
  have hidx0 : pyIdx main ((i : Int) - 1 + 0) = some p0 := by
    unfold pyIdx
    rw [if_pos (by omega)]
    have : ((i : Int) - 1 + 0).toNat = i - 1 := by omega
    rw [this]
    exact hm0
  obtain ⟨m, rfl⟩ : ∃ m, len = m + 1 := ⟨len - 1, by omega⟩
  have hoff : offsetFix pattern main (m + 1) i = .ok (i : Int) := by
    unfold offsetFix
    rw [List.range_succ_eq_map]
    simp only [offsetScan, hg0]
    rw [if_neg (by omega)]
    rw [fold_jRange_zero p0 main i p0 hidx0 rfl]
    simp
  rw [find_most_similar_block, hphase']
  simp only [Bool.false_eq_true, if_false]
  rw [hoff]

/-- Claim C9 is false as stated: `["aaa"]` is an exact copy of the file
`["aaa", "aaa"]` at 1-based index 2 with length 1, yet alignment returns
start 1, not 2 (the earlier identical window wins). -/
theorem c9_counterexample :
    (((["aaa", "aaa"] : List String).drop (2 - 1)).take 1 = ["aaa"]) ∧
    find_most_similar_block ["aaa"] ["aaa", "aaa"] 1 false ≠ .ok ((2 : Int), some 0) := by
  refine ⟨rfl, ?_⟩
  intro h
  have hval : find_most_similar_block ["aaa"] ["aaa", "aaa"] 1 false =
      .ok ((1 : Int), some 0) := rfl
  rw [hval] at h
  exact absurd (congrArg Prod.fst (Except.ok.inj h)) (by decide)

/-- Witness for the amended claim C9 on a concrete exact window. -/
theorem c9_amended_witness :
    find_most_similar_block ["hello", "world"] ["xxx", "hello", "world"] 2 false =
      .ok ((2 : Int), some 0) :=
  c9_amended ["xxx", "hello", "world"] ["hello", "world"] 2 2 "hello"
    (by decide) (by decide) (by decide) (by decide) (by decide) (by decide)
    (by decide)
    (by intro j hj
        have : j = 0 := by omega
        subst this
        decide)

/-! ## Claim C2 -/

/-- Number of context/removed lines in a hunk body prefix: this is the
running `i` of the rewrite loop of `revise_hunk`. -/
def countCR (l : List String) : Nat :=
  l.countP (fun s => pyStartsWith s " " || pyStartsWith s "-")

theorem reviseLinesAux_char (target : List String) (lineno : Int) :
    ∀ (tmp : List String) (i : Nat) (revised : List String) (k : Nat) (line : String),
      reviseLinesAux target lineno false tmp i = .ok revised →
      tmp.get? k = some line →
      (pyStartsWith line " " = true ∨ pyStartsWith line "-" = true) →
      ∃ newLine,
        pyIdx target (lineno - 1 + ((i + countCR (tmp.take k) : Nat) : Int)) = some newLine ∧
        revised.get? k = some (if stripAllWS (strDrop line 1) = stripAllWS newLine
          then strTake line 1 ++ stripNl newLine else line) := by
  intro tmp
  induction tmp with
  | nil =>
    intro i revised k line _ hk _
    simp at hk
  | cons line0 rest ih =>
    intro i revised k line hok hk htag
    by_cases htag0 : (pyStartsWith line0 " " || pyStartsWith line0 "-") = true
    · rw [show reviseLinesAux target lineno false (line0 :: rest) i =
          (if pyStartsWith line0 " " || pyStartsWith line0 "-" then
            match pyIdx target (lineno - 1 + (i : Int)) with
            | none => .error ()
            | some newLine =>
              let out :=
                if false = true then " " ++ stripNl newLine
                else if stripAllWS (strDrop line0 1) = stripAllWS newLine then
                  strTake line0 1 ++ stripNl newLine
                else line0
              match reviseLinesAux target lineno false rest (i + 1) with
              | .error _ => .error ()
              | .ok rs => .ok (out :: rs)
          else
            match reviseLinesAux target lineno false rest i with
            | .error _ => .error ()
            | .ok rs => .ok (pyReplace line0 "\x27s " "->" :: rs)) from rfl,
        if_pos htag0] at hok
      cases hidx : pyIdx target (lineno - 1 + (i : Int)) with
      | none => rw [hidx] at hok; exact absurd hok (by simp)
      | some nl =>
        rw [hidx] at hok
        cases hrec : reviseLinesAux target lineno false rest (i + 1) with
        | error e => rw [hrec] at hok; exact absurd hok (by simp)
        | ok rs =>
          rw [hrec] at hok
          simp only [Bool.false_eq_true, if_false] at hok
          have hrev : revised = (if stripAllWS (strDrop line0 1) = stripAllWS nl then
              strTake line0 1 ++ stripNl nl else line0) :: rs := (Except.ok.inj hok).symm
          cases k with
          | zero =>
            have hline : line = line0 := by
              have := hk
              simp only [List.get?] at this
              exact (Option.some.inj this).symm
            subst hline
            refine ⟨nl, ?_, ?_⟩
            · have : countCR ((line :: rest).take 0) = 0 := rfl
              rw [this]
              simpa using hidx
            · rw [hrev]; rfl
          | succ k' =>
            have hk' : rest.get? k' = some line := hk
            obtain ⟨nl', hidx', hget'⟩ := ih (i + 1) rs k' line hrec hk' htag
            refine ⟨nl', ?_, ?_⟩
            · have hcount : countCR ((line0 :: rest).take (k' + 1)) =
                  1 + countCR (rest.take k') := by
                unfold countCR
                rw [List.take_succ_cons, List.countP_cons, htag0]
                rw [show (if (true = true) then 1 else 0) = 1 from rfl]
                omega
              rw [hcount]
              have harith : (lineno - 1 + ((i + (1 + countCR (rest.take k')) : Nat) : Int)) =
                  (lineno - 1 + ((i + 1 + countCR (rest.take k') : Nat) : Int)) := by
                push_cast; ring
              rw [harith]
              exact hidx'
            · rw [hrev]
              simpa using hget'
    · rw [show reviseLinesAux target lineno false (line0 :: rest) i =
          (if pyStartsWith line0 " " || pyStartsWith line0 "-" then
            match pyIdx target (lineno - 1 + (i : Int)) with
            | none => .error ()
            | some newLine =>
              let out :=
                if false = true then " " ++ stripNl newLine
                else if stripAllWS (strDrop line0 1) = stripAllWS newLine then
                  strTake line0 1 ++ stripNl newLine
                else line0
              match reviseLinesAux target lineno false rest (i + 1) with
              | .error _ => .error ()
              | .ok rs => .ok (out :: rs)
          else
            match reviseLinesAux target lineno false rest i with
            | .error _ => .error ()
            | .ok rs => .ok (pyReplace line0 "\x27s " "->" :: rs)) from rfl,
        if_neg htag0] at hok
      cases hrec : reviseLinesAux target lineno false rest i with
      | error e => rw [hrec] at hok; exact absurd hok (by simp)
      | ok rs =>
        rw [hrec] at hok
        have hrev : revised = pyReplace line0 "\x27s " "->" :: rs := (Except.ok.inj hok).symm
        cases k with
        | zero =>
          exfalso
          have hline : line = line0 := by
            have := hk
            simp only [List.get?] at this
            exact (Option.some.inj this).symm
          subst hline
          rcases htag with h | h
          · exact htag0 (by rw [h]; rfl)
          · exact htag0 (by rw [h]; simp)
        | succ k' =>
          have hk' : rest.get? k' = some line := hk
          obtain ⟨nl', hidx', hget'⟩ := ih i rs k' line hrec hk' htag
          refine ⟨nl', ?_, ?_⟩
          · have hfalse : (pyStartsWith line0 " " || pyStartsWith line0 "-") = false := by
              cases h : (pyStartsWith line0 " " || pyStartsWith line0 "-") with
              | false => rfl
              | true => exact absurd h htag0
            have hcount : countCR ((line0 :: rest).take (k' + 1)) = countCR (rest.take k') := by
              unfold countCR
              rw [List.take_succ_cons, List.countP_cons, hfalse]
              rw [show (if (false = true) then 1 else 0) = 0 from rfl]
              omega
            rw [hcount]
            exact hidx'
          · rw [hrev]
            simpa using hget'

/-- Claim C2: in whitespace-only (default) repair mode, the context/removed
line at position `k` of the hunk body is replaced by the real file's line
at the corresponding aligned offset exactly when the two lines agree after
all whitespace is removed (the `+`/`-`/space tag being kept); otherwise the
original line is kept verbatim. -/
theorem c2_whitespace_only_rewrite (target : List String) (lineno : Int)
    (tmp revised : List String) (k : Nat) (line : String)
    (hok : reviseLinesAux target lineno false tmp 0 = .ok revised)
    (hk : tmp.get? k = some line)
    (htag : pyStartsWith line " " = true ∨ pyStartsWith line "-" = true) :
    ∃ newLine,
      pyIdx target (lineno - 1 + ((countCR (tmp.take k) : Nat) : Int)) = some newLine ∧
      revised.get? k = some (if stripAllWS (strDrop line 1) = stripAllWS newLine
        then strTake line 1 ++ stripNl newLine else line) := by
  obtain ⟨nl, hidx, hget⟩ := reviseLinesAux_char target lineno tmp 0 revised k line hok hk htag
  exact ⟨nl, by simpa using hidx, hget⟩

/-! ## Support for claim C3: line-shape invariants of the revised body -/

/-- A hunk body line with a valid tag (space, `-` or `+`). -/
def taggedLine (s : String) : Bool :=
  pyStartsWith s " " || pyStartsWith s "-" || pyStartsWith s "+"

theorem pyStartsWith_one_iff (s : String) (c : Char) :
    pyStartsWith s (String.mk [c]) = true ↔ ∃ r, s.data = c :: r := by
  unfold pyStartsWith
  cases hs : s.data with
  | nil => simp
  | cons a as => simp [List.take]

theorem pyStartsWith_mk_cons (c : Char) (d : List Char) :
    pyStartsWith (String.mk (c :: d)) (String.mk [c]) = true := by
  rw [pyStartsWith_one_iff]
  exact ⟨d, rfl⟩

theorem append_one_data (c : Char) (x : String) :
    (String.mk [c] ++ x).data = c :: x.data := rfl

theorem pyStartsWith_single_exclusive (s : String) (c1 c2 : Char)
    (h1 : pyStartsWith s (String.mk [c1]) = true) (hne : c1 ≠ c2) :
    pyStartsWith s (String.mk [c2]) = false := by
  obtain ⟨r, hr⟩ := (pyStartsWith_one_iff s c1).mp h1
  cases h2 : pyStartsWith s (String.mk [c2]) with
  | false => rfl
  | true =>
    obtain ⟨r', hr'⟩ := (pyStartsWith_one_iff s c2).mp h2
    rw [hr] at hr'
    exact absurd (List.cons.injEq _ _ _ _ ▸ hr').1 hne

theorem taggedLine_ne_empty (s : String) (h : taggedLine s = true) : s.data ≠ [] := by
  unfold taggedLine at h
  rcases Bool.or_eq_true_iff.mp h with h' | h'
  · rcases Bool.or_eq_true_iff.mp h' with h'' | h''
    · obtain ⟨r, hr⟩ := (pyStartsWith_one_iff s ' ').mp h''
      rw [hr]; simp
    · obtain ⟨r, hr⟩ := (pyStartsWith_one_iff s '-').mp h''
      rw [hr]; simp
  · obtain ⟨r, hr⟩ := (pyStartsWith_one_iff s '+').mp h'
    rw [hr]; simp

/-- For a tagged line, "does not start with `+`" is exactly "starts with a
space or a `-`" (the first character decides). -/
theorem not_plus_iff_context_or_removed (s : String) (h : taggedLine s = true) :
    (!(pyStartsWith s "+")) = (pyStartsWith s " " || pyStartsWith s "-") := by
  unfold taggedLine at h
  by_cases hp : pyStartsWith s "+" = true
  · have hs : pyStartsWith s " " = false :=
      pyStartsWith_single_exclusive s '+' ' ' hp (by decide)
    have hd : pyStartsWith s "-" = false :=
      pyStartsWith_single_exclusive s '+' '-' hp (by decide)
    rw [hp, hs, hd]
    rfl
  · have hp' : pyStartsWith s "+" = false := by
      cases hb : pyStartsWith s "+" with
      | false => rfl
      | true => exact absurd hb hp
    rw [hp']
    rw [hp'] at h
    simp only [Bool.or_false] at h
    rw [h]
    rfl

/-- Likewise, "does not start with `-`" is "starts with a space or a `+`". -/
theorem not_minus_iff_context_or_added (s : String) (h : taggedLine s = true) :
    (!(pyStartsWith s "-")) = (pyStartsWith s " " || pyStartsWith s "+") := by
  unfold taggedLine at h
  by_cases hm : pyStartsWith s "-" = true
  · have hs : pyStartsWith s " " = false :=
      pyStartsWith_single_exclusive s '-' ' ' hm (by decide)
    have hpl : pyStartsWith s "+" = false :=
      pyStartsWith_single_exclusive s '-' '+' hm (by decide)
    rw [hm, hs, hpl]
    rfl
  · have hm' : pyStartsWith s "-" = false := by
      cases hb : pyStartsWith s "-" with
      | false => rfl
      | true => exact absurd hb hm
    rw [hm'] at h ⊢
    simp only [Bool.or_false] at h
    rw [h]
    rfl

theorem mem_stripNl_data (s : String) (c : Char) (h : c ∈ (stripNl s).data) : c ∈ s.data := by
  unfold stripNl at h
  simp only [List.mem_reverse] at h
  have h1 := List.dropWhile_sublist (l := (s.data.dropWhile (· = '\n')).reverse)
    (p := (· = '\n'))
  have h2 := h1.mem h
  rw [List.mem_reverse] at h2
  exact (List.dropWhile_sublist (l := s.data) (p := (· = '\n'))).mem h2

theorem mem_strDrop_data (s : String) (n : Nat) (c : Char) (h : c ∈ (strDrop s n).data) :
    c ∈ s.data := by
  unfold strDrop at h
  exact List.drop_subset n s.data h

theorem mem_replaceAux_data (old new : List Char) :
    ∀ (fuel : Nat) (s : List Char) (c : Char), c ∈ replaceAux old new fuel s →
      c ∈ s ∨ c ∈ new := by
  intro fuel
  induction fuel with
  | zero =>
    intro s c h
    cases s with
    | nil => exact Or.inl h
    | cons a as => exact Or.inl h
  | succ f ih =>
    intro s c h
    cases s with
    | nil => exact Or.inl h
    | cons a as =>
      rw [replaceAux] at h
      by_cases hc : old ≠ [] ∧ old = (a :: as).take old.length
      · rw [if_pos hc] at h
        rcases List.mem_append.mp h with h' | h'
        · exact Or.inr h'
        · rcases ih _ c h' with h'' | h''
          · exact Or.inl (List.drop_subset _ _ h'')
          · exact Or.inr h''
      · rw [if_neg hc] at h
        rcases List.mem_cons.mp h with h' | h'
        · exact Or.inl (h' ▸ List.mem_cons_self a as)
        · rcases ih as c h' with h'' | h''
          · exact Or.inl (List.mem_cons_of_mem a h'')
          · exact Or.inr h''

/-- `pyReplace` keeps a leading character that cannot start the replaced
substring. -/
theorem pyReplace_keeps_head (s old new : String) (c : Char) (r : List Char)
    (hs : s.data = c :: r) (hold : ∀ ro, old.data ≠ c :: ro) :
    ∃ r', (pyReplace s old new).data = c :: r' := by
  unfold pyReplace
  rw [hs]
  have hlen : (c :: r).length = r.length + 1 := rfl
  rw [hlen, replaceAux]
  have hcond : ¬(old.data ≠ [] ∧ old.data = (c :: r).take old.data.length) := by
    rintro ⟨hne, htake⟩
    cases ho : old.data with
    | nil => exact hne ho
    | cons oc os =>
      rw [ho] at htake
      rw [show (oc :: os).length = os.length + 1 from rfl, List.take_succ_cons] at htake
      injection htake with hoc _
      exact hold os (by rw [ho, hoc])
  rw [if_neg hcond]
  exact ⟨_, rfl⟩

theorem strEta (s : String) : String.mk s.data = s := by cases s; rfl

theorem splitOnChar_no_sep (sep : Char) :
    ∀ (xd : List Char), sep ∉ xd → splitOnChar sep xd = [xd] := by
  intro xd
  induction xd with
  | nil => intro _; rfl
  | cons c cs ih =>
    intro h
    have hc : ¬(c = sep) := fun he => h (he ▸ List.mem_cons_self c cs)
    rw [splitOnChar, if_neg hc, ih (fun hm => h (List.mem_cons_of_mem c hm))]

theorem splitOnChar_append (sep : Char) :
    ∀ (xd r : List Char), sep ∉ xd →
      splitOnChar sep (xd ++ sep :: r) = xd :: splitOnChar sep r := by
  intro xd
  induction xd with
  | nil =>
    intro r _
    rw [List.nil_append, splitOnChar, if_pos rfl]
  | cons c cs ih =>
    intro r h
    have hc : ¬(c = sep) := fun he => h (he ▸ List.mem_cons_self c cs)
    rw [List.cons_append, splitOnChar, if_neg hc,
      ih r (fun hm => h (List.mem_cons_of_mem c hm))]

theorem mem_of_getLast?_eq {α : Type} : ∀ (l : List α) (a : α), l.getLast? = some a → a ∈ l := by
  intro l
  induction l with
  | nil => intro a h; simp at h
  | cons x xs ih =>
    intro a h
    cases xs with
    | nil =>
      simp only [List.getLast?_singleton, Option.some.injEq] at h
      exact h ▸ List.mem_cons_self x []
    | cons y ys =>
      rw [List.getLast?_cons_cons] at h
      exact List.mem_cons_of_mem x (ih a h)

theorem joinSep_newline_props :
    ∀ (l : List String), l ≠ [] → (∀ s ∈ l, s.data ≠ [] ∧ '\n' ∉ s.data) →
      (joinSep "\n" l).data ≠ [] ∧
      (joinSep "\n" l).data.getLast? ≠ some '\n' ∧
      splitOnChar '\n' (joinSep "\n" l).data = l.map String.data := by
  intro l
  induction l with
  | nil => intro h _; exact absurd rfl h
  | cons x xs ih =>
    intro _ hl
    cases xs with
    | nil =>
      obtain ⟨hx1, hx2⟩ := hl x (List.mem_cons_self x [])
      refine ⟨hx1, ?_, ?_⟩
      · intro hlast
        exact hx2 (mem_of_getLast?_eq _ _ hlast)
      · rw [show joinSep "\n" [x] = x from rfl]
        rw [splitOnChar_no_sep '\n' x.data hx2]
        rfl
    | cons y ys =>
      obtain ⟨hx1, hx2⟩ := hl x (List.mem_cons_self x _)
      obtain ⟨hJ1, hJ2, hJ3⟩ := ih (by simp) (fun s hs => hl s (List.mem_cons_of_mem x hs))
      have hdata : (joinSep "\n" (x :: y :: ys)).data =
          x.data ++ '\n' :: (joinSep "\n" (y :: ys)).data := by
        rw [show joinSep "\n" (x :: y :: ys) = x ++ "\n" ++ joinSep "\n" (y :: ys) from rfl]
        simp [String.data_append]
      refine ⟨?_, ?_, ?_⟩
      · rw [hdata]; simp
      · rw [hdata]
        rw [List.getLast?_append_of_ne_nil _ (by simp)]
        rw [show ('\n' :: (joinSep "\n" (y :: ys)).data) = ['\n'] ++ (joinSep "\n" (y :: ys)).data
          from rfl]
        rw [List.getLast?_append_of_ne_nil _ hJ1]
        exact hJ2
      · rw [hdata, splitOnChar_append '\n' x.data _ hx2, hJ3]
        rfl

/-- Splitting a header line followed by newline-joined, newline-free,
nonempty body lines recovers exactly the header and the body. -/
theorem pySplitlines_header_body (H : String) (l : List String)
    (hH : H.data ≠ [] ∧ '\n' ∉ H.data)
    (hl : ∀ s ∈ l, s.data ≠ [] ∧ '\n' ∉ s.data) :
    pySplitlines (H ++ "\n" ++ joinSep "\n" l) = H :: l := by
  cases l with
  | nil =>
    have hdata : (H ++ "\n" ++ joinSep "\n" ([] : List String)).data = H.data ++ ['\n'] := by
      simp [String.data_append, joinSep]
    rw [pySplitlines, hdata]
    rw [if_neg (by simp)]
    have hlast : (H.data ++ ['\n']).getLast? = some '\n' := by
      rw [List.getLast?_append_of_ne_nil _ (by simp)]
      rfl
    rw [if_pos hlast]
    rw [show H.data ++ ['\n'] = H.data ++ '\n' :: [] from rfl]
    rw [splitOnChar_append '\n' H.data [] hH.2]
    rw [show splitOnChar '\n' [] = [[]] from rfl]
    simp [strEta]
  | cons y ys =>
    obtain ⟨hJ1, hJ2, hJ3⟩ := joinSep_newline_props (y :: ys) (by simp) hl
    have hdata : (H ++ "\n" ++ joinSep "\n" (y :: ys)).data =
        H.data ++ '\n' :: (joinSep "\n" (y :: ys)).data := by
      simp [String.data_append]
    rw [pySplitlines, hdata]
    rw [if_neg (by simp)]
    have hlast : (H.data ++ '\n' :: (joinSep "\n" (y :: ys)).data).getLast? ≠ some '\n' := by
      rw [List.getLast?_append_of_ne_nil _ (by simp)]
      rw [show ('\n' :: (joinSep "\n" (y :: ys)).data) = ['\n'] ++ (joinSep "\n" (y :: ys)).data
        from rfl]
      rw [List.getLast?_append_of_ne_nil _ hJ1]
      exact hJ2
    rw [if_neg hlast]
    rw [splitOnChar_append '\n' H.data _ hH.2, hJ3]
    have hmk : ∀ (zs : List String),
        (zs.map String.data).map (fun l => String.mk l) = zs := by
      intro zs
      induction zs with
      | nil => rfl
      | cons a as ihz => simp only [List.map_cons, ihz, strEta]
    rw [List.map_cons, hmk, strEta]

/-! ### Fields of a parsed hunk header -/

theorem takeDigits_digits (cs run rest : List Char) (h : takeDigits cs = some (run, rest)) :
    ∀ c ∈ run, c.isDigit = true := by
  unfold takeDigits at h
  by_cases hrun : cs.takeWhile Char.isDigit = []
  · rw [if_pos hrun] at h; simp at h
  · rw [if_neg hrun] at h
    obtain ⟨h1, _⟩ := Prod.mk.injEq _ _ _ _ ▸ Option.some.inj h
    intro c hc
    rw [← h1] at hc
    exact List.mem_takeWhile_imp hc

theorem matchAtAt_fields (cs : List Char) (ch : HunkHeader) (h : matchAtAt cs = some ch) :
    (∀ c ∈ ch.oldStart.data, c.isDigit = true) ∧
    (∀ c ∈ ch.newStart.data, c.isDigit = true) ∧
    '\n' ∉ ch.trail.data := by
  unfold matchAtAt at h
  cases h1 : dropLit "@@ -".data cs with
  | none => simp [h1] at h
  | some cs1 =>
    simp only [h1, Option.some_bind] at h
    cases h2 : takeDigits cs1 with
    | none => simp [h2] at h
    | some p1 =>
      simp only [h2, Option.some_bind] at h
      cases h3 : dropLit [','] p1.2 with
      | none => simp [h3] at h
      | some cs3 =>
        simp only [h3, Option.some_bind] at h
        cases h4 : takeDigits cs3 with
        | none => simp [h4] at h
        | some p2 =>
          simp only [h4, Option.some_bind] at h
          cases h5 : dropLit " +".data p2.2 with
          | none => simp [h5] at h
          | some cs5 =>
            simp only [h5, Option.some_bind] at h
            cases h6 : takeDigits cs5 with
            | none => simp [h6] at h
            | some p3 =>
              simp only [h6, Option.some_bind] at h
              cases h7 : dropLit [','] p3.2 with
              | none => simp [h7] at h
              | some cs7 =>
                simp only [h7, Option.some_bind] at h
                cases h8 : takeDigits cs7 with
                | none => simp [h8] at h
                | some p4 =>
                  simp only [h8, Option.some_bind] at h
                  cases h9 : dropLit " @@".data p4.2 with
                  | none => simp [h9] at h
                  | some cs9 =>
                    simp only [h9, Option.some_bind] at h
                    have hch : ch =
                        ⟨⟨p1.1⟩, ⟨p2.1⟩, ⟨p3.1⟩, ⟨p4.1⟩, ⟨cs9.takeWhile (· ≠ '\n')⟩⟩ :=
                      (Option.some.inj h).symm
                    subst hch
                    refine ⟨takeDigits_digits cs1 p1.1 p1.2 ?_,
                      takeDigits_digits cs5 p3.1 p3.2 ?_, ?_⟩
                    · rw [h2]
                    · rw [h6]
                    · intro hmem
                      have := List.mem_takeWhile_imp hmem
                      simp at this

theorem parseAtAt_fields :
    ∀ (cs : List Char) (ch : HunkHeader), parseAtAt cs = some ch →
      (∀ c ∈ ch.oldStart.data, c.isDigit = true) ∧
      (∀ c ∈ ch.newStart.data, c.isDigit = true) ∧
      '\n' ∉ ch.trail.data := by
  intro cs
  induction cs with
  | nil => intro ch h; simp [parseAtAt] at h
  | cons c cs ih =>
    intro ch h
    rw [parseAtAt] at h
    cases hm : matchAtAt (c :: cs) with
    | some r =>
      rw [hm] at h
      exact (Option.some.inj h) ▸ matchAtAt_fields (c :: cs) r hm
    | none =>
      rw [hm] at h
      exact ih ch h

/-! ### Decimal digits of `toString (n : Nat)` -/

theorem digitChar_ne_newline (m : Nat) : Nat.digitChar m ≠ '\n' := by
  rcases Nat.lt_or_ge m 16 with h16 | h16
  · interval_cases m <;> decide
  · have hstar : Nat.digitChar m = '*' := by
      unfold Nat.digitChar
      repeat rw [if_neg (by omega)]
    rw [hstar]
    decide

theorem toDigitsCore_no_newline :
    ∀ (fuel n : Nat) (acc : List Char), (∀ c ∈ acc, c ≠ '\n') →
      ∀ c ∈ Nat.toDigitsCore 10 fuel n acc, c ≠ '\n' := by
  intro fuel
  induction fuel with
  | zero => intro n acc hacc; exact hacc
  | succ f ih =>
    intro n acc hacc c hc
    rw [Nat.toDigitsCore] at hc
    by_cases hz : n / 10 = 0
    · rw [if_pos hz] at hc
      rcases List.mem_cons.mp hc with h | h
      · exact h ▸ digitChar_ne_newline (n % 10)
      · exact hacc c h
    · rw [if_neg hz] at hc
      refine ih (n / 10) (Nat.digitChar (n % 10) :: acc) ?_ c hc
      intro d hd
      rcases List.mem_cons.mp hd with h | h
      · exact h ▸ digitChar_ne_newline (n % 10)
      · exact hacc d h

theorem toDigitsCore_ne_nil :
    ∀ (fuel n : Nat) (acc : List Char), acc ≠ [] → Nat.toDigitsCore 10 fuel n acc ≠ [] := by
  intro fuel
  induction fuel with
  | zero => intro n acc hacc; exact hacc
  | succ f ih =>
    intro n acc hacc
    rw [Nat.toDigitsCore]
    by_cases hz : n / 10 = 0
    · rw [if_pos hz]; simp
    · rw [if_neg hz]
      exact ih (n / 10) _ (by simp)

theorem toString_nat_no_newline (n : Nat) : '\n' ∉ (toString n).data := by
  intro h
  have : ∀ c ∈ Nat.toDigitsCore 10 (n + 1) n [], c ≠ '\n' :=
    toDigitsCore_no_newline (n + 1) n [] (by intro c hc; simp at hc)
  exact this '\n' h rfl

theorem toString_nat_ne_nil (n : Nat) : (toString n).data ≠ [] := by
  rw [show (toString n).data = Nat.toDigitsCore 10 (n + 1) n [] from rfl]
  rw [Nat.toDigitsCore]
  by_cases hz : n / 10 = 0
  · rw [if_pos hz]; simp
  · rw [if_neg hz]
    exact toDigitsCore_ne_nil n (n / 10) _ (by simp)

/-! ### The revised body consists of tagged, newline-free lines -/

theorem pyIdx_mem {α : Type} (l : List α) (i : Int) (a : α) (h : pyIdx l i = some a) :
    a ∈ l := by
  unfold pyIdx at h
  by_cases h0 : 0 ≤ i
  · rw [if_pos h0] at h
    exact List.get?_mem h
  · rw [if_neg h0] at h
    by_cases h1 : (-i).toNat ≤ l.length
    · rw [if_pos h1] at h
      exact List.get?_mem h
    · rw [if_neg h1] at h
      simp at h

theorem append_data_cons (c : Char) (x y : String) (hx : x.data = [c]) :
    (x ++ y).data = c :: y.data := by
  rw [String.data_append, hx]
  rfl

theorem good_space_append (x : String) (hx : '\n' ∉ x.data) :
    taggedLine (" " ++ x) = true ∧ '\n' ∉ (" " ++ x).data := by
  have hdata : (" " ++ x).data = ' ' :: x.data := rfl
  constructor
  · unfold taggedLine
    have : pyStartsWith (" " ++ x) " " = true := by
      have := pyStartsWith_mk_cons ' ' x.data
      rw [show String.mk (' ' :: x.data) = " " ++ x from rfl] at this
      exact this
    rw [this]
    rfl
  · rw [hdata]
    intro hc
    rcases List.mem_cons.mp hc with h | h
    · exact absurd h (by decide)
    · exact hx h

theorem coerceLine_good (l : String) (h : '\n' ∉ l.data) :
    taggedLine (coerceLine l) = true ∧ '\n' ∉ (coerceLine l).data := by
  unfold coerceLine
  by_cases hc : (pyStartsWith l "+" || pyStartsWith l "-" || pyStartsWith l " ") = true
  · rw [if_pos hc]
    refine ⟨?_, h⟩
    unfold taggedLine
    rcases Bool.or_eq_true_iff.mp hc with h' | h'
    · rcases Bool.or_eq_true_iff.mp h' with h'' | h''
      · rw [h'']; simp
      · rw [h'']; simp
    · rw [h']; simp
  · rw [if_neg hc]
    exact good_space_append l h

/-- The rewrite loop only emits tagged, newline-free lines. -/
theorem reviseLinesAux_good (target : List String) (lineno : Int) (rc : Bool)
    (hT : ∀ s ∈ target, '\n' ∉ s.data) :
    ∀ (tmp : List String) (i : Nat) (revised : List String),
      reviseLinesAux target lineno rc tmp i = .ok revised →
      (∀ s ∈ tmp, taggedLine s = true ∧ '\n' ∉ s.data) →
      ∀ s ∈ revised, taggedLine s = true ∧ '\n' ∉ s.data := by
  intro tmp
  induction tmp with
  | nil =>
    intro i revised hok _
    have : revised = [] := by
      have : Except.ok ([] : List String) = (.ok revised : Except Unit (List String)) := hok
      exact (Except.ok.inj this).symm ▸ rfl
    rw [this]
    intro s hs
    simp at hs
  | cons line rest ih =>
    intro i revised hok htmp
    have hline := htmp line (List.mem_cons_self line rest)
    have hrest := fun s hs => htmp s (List.mem_cons_of_mem line hs)
    by_cases htag : (pyStartsWith line " " || pyStartsWith line "-") = true
    · rw [show reviseLinesAux target lineno rc (line :: rest) i =
          (if pyStartsWith line " " || pyStartsWith line "-" then
            match pyIdx target (lineno - 1 + (i : Int)) with
            | none => .error ()
            | some newLine =>
              let out :=
                if rc then " " ++ stripNl newLine
                else if stripAllWS (strDrop line 1) = stripAllWS newLine then
                  strTake line 1 ++ stripNl newLine
                else line
              match reviseLinesAux target lineno rc rest (i + 1) with
              | .error _ => .error ()
              | .ok rs => .ok (out :: rs)
          else
            match reviseLinesAux target lineno rc rest i with
            | .error _ => .error ()
            | .ok rs => .ok (pyReplace line "\x27s " "->" :: rs)) from rfl,
        if_pos htag] at hok
      cases hidx : pyIdx target (lineno - 1 + (i : Int)) with
      | none => rw [hidx] at hok; exact absurd hok (by simp)
      | some nl =>
        rw [hidx] at hok
        cases hrec : reviseLinesAux target lineno rc rest (i + 1) with
        | error e => rw [hrec] at hok; exact absurd hok (by simp)
        | ok rs =>
          rw [hrec] at hok
          simp only at hok
          have hnl : '\n' ∉ nl.data := hT nl (pyIdx_mem target _ nl hidx)
          have hstrip : '\n' ∉ (stripNl nl).data := fun hm => hnl (mem_stripNl_data nl '\n' hm)
          have hout : ∀ out, (out = (if rc then " " ++ stripNl nl
              else if stripAllWS (strDrop line 1) = stripAllWS nl then
                strTake line 1 ++ stripNl nl else line)) →
              taggedLine out = true ∧ '\n' ∉ out.data := by
            intro out hdef
            by_cases hrc : rc = true
            · rw [hrc, if_pos rfl] at hdef
              rw [hdef]
              exact good_space_append (stripNl nl) hstrip
            · rw [if_neg hrc] at hdef
              by_cases heq : stripAllWS (strDrop line 1) = stripAllWS nl
              · rw [if_pos heq] at hdef
                rcases Bool.or_eq_true_iff.mp htag with hsp | hmn
                · obtain ⟨r, hr⟩ := (pyStartsWith_one_iff line ' ').mp hsp
                  have htake : (strTake line 1).data = [' '] := by
                    unfold strTake
                    rw [hr]
                    rfl
                  rw [hdef]
                  constructor
                  · unfold taggedLine
                    have hd2 : (strTake line 1 ++ stripNl nl).data = ' ' :: (stripNl nl).data :=
                      append_data_cons ' ' _ _ htake
                    have : pyStartsWith (strTake line 1 ++ stripNl nl) " " = true := by
                      rw [pyStartsWith_one_iff]
                      exact ⟨(stripNl nl).data, hd2⟩
                    rw [this]
                    rfl
                  · rw [append_data_cons ' ' _ _ htake]
                    intro hc
                    rcases List.mem_cons.mp hc with hh | hh
                    · exact absurd hh (by decide)
                    · exact hstrip hh
                · obtain ⟨r, hr⟩ := (pyStartsWith_one_iff line '-').mp hmn
                  have htake : (strTake line 1).data = ['-'] := by
                    unfold strTake
                    rw [hr]
                    rfl
                  rw [hdef]
                  constructor
                  · unfold taggedLine
                    have hd2 : (strTake line 1 ++ stripNl nl).data = '-' :: (stripNl nl).data :=
                      append_data_cons '-' _ _ htake
                    have : pyStartsWith (strTake line 1 ++ stripNl nl) "-" = true := by
                      rw [pyStartsWith_one_iff]
                      exact ⟨(stripNl nl).data, hd2⟩
                    rw [this]
                    simp [taggedLine]
                  · rw [append_data_cons '-' _ _ htake]
                    intro hc
                    rcases List.mem_cons.mp hc with hh | hh
                    · exact absurd hh (by decide)
                    · exact hstrip hh
              · rw [if_neg heq] at hdef
                rw [hdef]
                exact hline
          have hrev : revised = (if rc then " " ++ stripNl nl
              else if stripAllWS (strDrop line 1) = stripAllWS nl then
                strTake line 1 ++ stripNl nl else line) :: rs := (Except.ok.inj hok).symm
          rw [hrev]
          intro s hs
          rcases List.mem_cons.mp hs with hh | hh
          · exact hh ▸ hout _ rfl
          · exact ih (i + 1) rs hrec hrest s hh
    · rw [show reviseLinesAux target lineno rc (line :: rest) i =
          (if pyStartsWith line " " || pyStartsWith line "-" then
            match pyIdx target (lineno - 1 + (i : Int)) with
            | none => .error ()
            | some newLine =>
              let out :=
                if rc then " " ++ stripNl newLine
                else if stripAllWS (strDrop line 1) = stripAllWS newLine then
                  strTake line 1 ++ stripNl newLine
                else line
              match reviseLinesAux target lineno rc rest (i + 1) with
              | .error _ => .error ()
              | .ok rs => .ok (out :: rs)
          else
            match reviseLinesAux target lineno rc rest i with
            | .error _ => .error ()
            | .ok rs => .ok (pyReplace line "\x27s " "->" :: rs)) from rfl,
        if_neg htag] at hok
      cases hrec : reviseLinesAux target lineno rc rest i with
      | error e => rw [hrec] at hok; exact absurd hok (by simp)
      | ok rs =>
        rw [hrec] at hok
        have hrev : revised = pyReplace line "\x27s " "->" :: rs := (Except.ok.inj hok).symm
        have hplus : pyStartsWith line "+" = true := by
          have := hline.1
          unfold taggedLine at this
          rcases Bool.or_eq_true_iff.mp this with h' | h'
          · exact absurd h' (by
              intro hcon
              exact htag (by
                rcases Bool.or_eq_true_iff.mp hcon with h'' | h''
                · rw [h'']; rfl
                · rw [h'']; simp))
          · exact h'
        obtain ⟨r, hr⟩ := (pyStartsWith_one_iff line '+').mp hplus
        obtain ⟨r', hr'⟩ := pyReplace_keeps_head line "\x27s " "->" '+' r hr
          (by intro ro hctr
              have := congrArg List.head? hctr
              simp at this)
        have hgood : taggedLine (pyReplace line "\x27s " "->") = true ∧
            '\n' ∉ (pyReplace line "\x27s " "->").data := by
          constructor
          · unfold taggedLine
            have : pyStartsWith (pyReplace line "\x27s " "->") "+" = true := by
              rw [pyStartsWith_one_iff]
              exact ⟨r', hr'⟩
            rw [this]
            simp
          · intro hc
            rcases mem_replaceAux_data "\x27s ".data "->".data line.data.length line.data '\n'
              hc with hh | hh
            · exact hline.2 hh
            · exact absurd hh (by decide)
        rw [hrev]
        intro s hs
        rcases List.mem_cons.mp hs with hh | hh
        · exact hh ▸ hgood
        · exact ih i rs hrec hrest s hh

theorem pySet_result {α : Type} (l : List α) (i : Int) (v : α) (l2 : List α)
    (h : pySet l i v = some l2) : ∃ n, l2 = l.set n v := by
  unfold pySet at h
  by_cases h0 : 0 ≤ i
  · rw [if_pos h0] at h
    by_cases h1 : i.toNat < l.length
    · rw [if_pos h1] at h
      exact ⟨i.toNat, (Option.some.inj h).symm⟩
    · rw [if_neg h1] at h
      simp at h
  · rw [if_neg h0] at h
    by_cases h1 : (-i).toNat ≤ l.length
    · rw [if_pos h1] at h
      exact ⟨l.length - (-i).toNat, (Option.some.inj h).symm⟩
    · rw [if_neg h1] at h
      simp at h

/-- The force-mode removed-line re-anchoring preserves the body shape. -/
theorem forceMarkRemoved_good :
    ∀ (tmp rl : List String) (lastLine : Int) (rl2 : List String) (ll2 : Int),
      forceMarkRemoved tmp rl lastLine = .ok (rl2, ll2) →
      (∀ s ∈ rl, taggedLine s = true ∧ '\n' ∉ s.data) →
      ∀ s ∈ rl2, taggedLine s = true ∧ '\n' ∉ s.data := by
  intro tmp
  induction tmp with
  | nil =>
    intro rl lastLine rl2 ll2 hok hrl
    have : rl = rl2 := by
      have := Except.ok.inj hok
      exact ((Prod.mk.injEq _ _ _ _).mp this).1
    exact this ▸ hrl
  | cons l rest ih =>
    intro rl lastLine rl2 ll2 hok hrl
    by_cases htag : pyStartsWith l "-" = true
    · rw [show forceMarkRemoved (l :: rest) rl lastLine =
          (if pyStartsWith l "-" then
            match find_most_similar_block [strDrop l 1] (rl.drop lastLine.toNat) 1 true with
            | .error _ => .error ()
            | .ok (dl, _) =>
              let dlineno := dl + lastLine
              match pyIdx rl (dlineno - 1) with
              | none => .error ()
              | some old =>
                match pySet rl (dlineno - 1) ("-" ++ strDrop old 1) with
                | none => .error ()
                | some rl2 => forceMarkRemoved rest rl2 dlineno
          else forceMarkRemoved rest rl lastLine) from rfl, if_pos htag] at hok
      cases hfind : find_most_similar_block [strDrop l 1] (rl.drop lastLine.toNat) 1 true with
      | error e => rw [hfind] at hok; exact absurd hok (by simp)
      | ok p =>
        rw [hfind] at hok
        obtain ⟨dl, d⟩ := p
        simp only at hok
        cases hidx : pyIdx rl (dl + lastLine - 1) with
        | none => rw [hidx] at hok; exact absurd hok (by simp)
        | some old =>
          rw [hidx] at hok
          simp only at hok
          cases hset : pySet rl (dl + lastLine - 1) ("-" ++ strDrop old 1) with
          | none => rw [hset] at hok; exact absurd hok (by simp)
          | some rlset =>
            rw [hset] at hok
            have hrlset : ∀ s ∈ rlset, taggedLine s = true ∧ '\n' ∉ s.data := by
              obtain ⟨n, hn⟩ := pySet_result rl _ _ rlset hset
              intro s hs
              rw [hn] at hs
              rcases List.mem_or_eq_of_mem_set hs with hh | hh
              · exact hrl s hh
              · have hold := hrl old (pyIdx_mem rl _ old hidx)
                rw [hh]
                constructor
                · unfold taggedLine
                  have hdata : ("-" ++ strDrop old 1).data = '-' :: (strDrop old 1).data := rfl
                  have : pyStartsWith ("-" ++ strDrop old 1) "-" = true := by
                    rw [pyStartsWith_one_iff]
                    exact ⟨(strDrop old 1).data, hdata⟩
                  rw [this]
                  simp
                · intro hc
                  rcases List.mem_cons.mp hc with hh' | hh'
                  · exact absurd hh' (by decide)
                  · exact hold.2 (mem_strDrop_data old 1 '\n' hh')
            exact ih rlset _ rl2 ll2 hok hrlset
    · rw [show forceMarkRemoved (l :: rest) rl lastLine =
          (if pyStartsWith l "-" then
            match find_most_similar_block [strDrop l 1] (rl.drop lastLine.toNat) 1 true with
            | .error _ => .error ()
            | .ok (dl, _) =>
              let dlineno := dl + lastLine
              match pyIdx rl (dlineno - 1) with
              | none => .error ()
              | some old =>
                match pySet rl (dlineno - 1) ("-" ++ strDrop old 1) with
                | none => .error ()
                | some rl2 => forceMarkRemoved rest rl2 dlineno
          else forceMarkRemoved rest rl lastLine) from rfl, if_neg htag] at hok
      exact ih rl lastLine rl2 ll2 hok hrl

/-- The force-mode trailing-context append preserves the body shape. -/
theorem forceAppendContext_good (target : List String) (lineno : Int) (numContext : Nat)
    (rl rl2 : List String) (hT : ∀ s ∈ target, '\n' ∉ s.data)
    (hok : forceAppendContext target lineno numContext rl = .ok rl2)
    (hrl : ∀ s ∈ rl, taggedLine s = true ∧ '\n' ∉ s.data) :
    ∀ s ∈ rl2, taggedLine s = true ∧ '\n' ∉ s.data := by
  unfold forceAppendContext at hok
  cases hlast : rl.getLast? with
  | none => rw [hlast] at hok; exact absurd hok (by simp)
  | some last =>
    rw [hlast] at hok
    simp only at hok
    by_cases hsp : pyStartsWith last " " = true
    · rw [if_pos hsp] at hok
      exact (Except.ok.inj hok) ▸ hrl
    · rw [if_neg hsp] at hok
      cases hidx : pyIdx target (lineno - 1 + (numContext : Int)) with
      | none => rw [hidx] at hok; exact absurd hok (by simp)
      | some nl =>
        rw [hidx] at hok
        have hrev : rl2 = rl ++ [" " ++ stripNl nl] := (Except.ok.inj hok).symm
        rw [hrev]
        intro s hs
        rcases List.mem_append.mp hs with hh | hh
        · exact hrl s hh
        · have : s = " " ++ stripNl nl := by simpa using hh
          rw [this]
          exact good_space_append (stripNl nl)
            (fun hm => hT nl (pyIdx_mem target _ nl hidx) (mem_stripNl_data nl '\n' hm))

/-! ## Claim C3 -/

/-- The bare header line (without its trailing newline). -/
def mkHeaderLine (ch : HunkHeader) (orig patched : Nat) : String :=
  "@@ -" ++ ch.oldStart ++ "," ++ toString orig ++ " +" ++ ch.newStart ++ ","
    ++ toString patched ++ " @@" ++ ch.trail

theorem mkHeader_eq_line (ch : HunkHeader) (orig patched : Nat) :
    mkHeader ch orig patched = mkHeaderLine ch orig patched ++ "\n" := rfl

theorem mkHeaderLine_props (ch : HunkHeader) (orig patched : Nat)
    (hds : ∀ c ∈ ch.oldStart.data, c.isDigit = true)
    (hns : ∀ c ∈ ch.newStart.data, c.isDigit = true)
    (htr : '\n' ∉ ch.trail.data) :
    (mkHeaderLine ch orig patched).data ≠ [] ∧ '\n' ∉ (mkHeaderLine ch orig patched).data := by
  have hdata : (mkHeaderLine ch orig patched).data =
      "@@ -".data ++ ch.oldStart.data ++ ",".data ++ (toString orig).data ++ " +".data
        ++ ch.newStart.data ++ ",".data ++ (toString patched).data ++ " @@".data
        ++ ch.trail.data := by
    unfold mkHeaderLine
    simp [String.data_append]
  constructor
  · rw [hdata]; simp
  · rw [hdata]
    intro hc
    simp only [List.mem_append] at hc
    rcases hc with ((((((((hc | hc) | hc) | hc) | hc) | hc) | hc) | hc) | hc) | hc
    · exact absurd hc (by decide)
    · exact absurd (hds '\n' hc) (by decide)
    · exact absurd hc (by decide)
    · exact toString_nat_no_newline orig hc
    · exact absurd hc (by decide)
    · exact absurd (hns '\n' hc) (by decide)
    · exact absurd hc (by decide)
    · exact toString_nat_no_newline patched hc
    · exact absurd hc (by decide)
    · exact htr hc

/-- Claim C3: for every hunk that `revise_hunk` outputs, the recomputed
header's old count is the number of context plus removed lines of the
(possibly rewritten) body and its new count is the number of context plus
added lines; and the hunk is flagged as modified exactly when the original
header's old-start field differs from its new-start field (in particular
whenever they differ).  The hypotheses say only that the hunk lines and
the real file lines contain no embedded newline characters, which holds
for every caller since both come from `splitlines`. -/
theorem c3_header_recomputation (lines target : List String) (rc : Bool)
    (text : String) (fixed : Bool)
    (hnlL : ∀ s ∈ lines, '\n' ∉ s.data) (hnlT : ∀ s ∈ target, '\n' ∉ s.data)
    (hok : revise_hunk lines target rc = .ok (text, fixed)) :
    ∃ ch : HunkHeader, parseAtAtStr lines.headI = some ch ∧
      text = mkHeader ch
          (((pySplitlines text).drop 1).countP
            (fun l => pyStartsWith l " " || pyStartsWith l "-"))
          (((pySplitlines text).drop 1).countP
            (fun l => pyStartsWith l " " || pyStartsWith l "+"))
        ++ joinSep "\n" ((pySplitlines text).drop 1) ∧
      fixed = decide (ch.oldStart ≠ ch.newStart) := by
  cases lines with
  | nil => exact absurd hok (by simp [revise_hunk])
  | cons l0 restL =>
    simp only [revise_hunk] at hok
    cases hfind : find_most_similar_block
        (extract_context (((if pyLen ((l0 :: restL).getLastD "") = 0
            || pyIn "\x5c No newline at end of file" ((l0 :: restL).getLastD "")
          then (l0 :: restL).dropLast else l0 :: restL).drop 1).map coerceLine)).1
        target
        (extract_context (((if pyLen ((l0 :: restL).getLastD "") = 0
            || pyIn "\x5c No newline at end of file" ((l0 :: restL).getLastD "")
          then (l0 :: restL).dropLast else l0 :: restL).drop 1).map coerceLine)).1.length
        false with
    | error e => rw [hfind] at hok; exact absurd hok (by simp)
    | ok p =>
      rw [hfind] at hok
      obtain ⟨lineno, snd⟩ := p
      simp only at hok
      set tmpLines := (((if pyLen ((l0 :: restL).getLastD "") = 0
          || pyIn "\x5c No newline at end of file" ((l0 :: restL).getLastD "")
        then (l0 :: restL).dropLast else l0 :: restL).drop 1).map coerceLine) with htmp
      cases hrevise : reviseLinesAux target lineno rc tmpLines 0 with
      | error e => rw [hrevise] at hok; exact absurd hok (by simp)
      | ok revised =>
        rw [hrevise] at hok
        simp only at hok
        have htmpGood : ∀ s ∈ tmpLines, taggedLine s = true ∧ '\n' ∉ s.data := by
          intro s hs
          rw [htmp] at hs
          obtain ⟨orig, horig, hco⟩ := List.mem_map.mp hs
          have horigMem : orig ∈ l0 :: restL := by
            have h1 := List.drop_subset 1 _ horig
            by_cases hcond : (pyLen ((l0 :: restL).getLastD "") = 0
                || pyIn "\x5c No newline at end of file" ((l0 :: restL).getLastD "")) = true
            · rw [if_pos hcond] at h1
              exact List.dropLast_subset _ h1
            · rw [if_neg hcond] at h1
              exact h1
          rw [← hco]
          exact coerceLine_good orig (hnlL orig horigMem)
        have hrevGood : ∀ s ∈ revised, taggedLine s = true ∧ '\n' ∉ s.data :=
          reviseLinesAux_good target lineno rc hnlT tmpLines 0 revised hrevise htmpGood
        cases hstep2 : (if rc = true then
            match forceMarkRemoved tmpLines revised 0 with
            | .error _ => (.error () : Except Unit (List String))
            | .ok (rl, _) =>
              forceAppendContext target lineno
                (extract_context tmpLines).1.length rl
          else .ok revised) with
        | error e => rw [hstep2] at hok; exact absurd hok (by simp)
        | ok revised2 =>
          rw [hstep2] at hok
          simp only at hok
          have hrev2Good : ∀ s ∈ revised2, taggedLine s = true ∧ '\n' ∉ s.data := by
            by_cases hrc : rc = true
            · rw [if_pos hrc] at hstep2
              cases hforce : forceMarkRemoved tmpLines revised 0 with
              | error e => rw [hforce] at hstep2; exact absurd hstep2 (by simp)
              | ok q =>
                rw [hforce] at hstep2
                obtain ⟨rl, ll⟩ := q
                simp only at hstep2
                exact forceAppendContext_good target lineno _ rl revised2 hnlT hstep2
                  (forceMarkRemoved_good tmpLines revised 0 rl ll hforce hrevGood)
            · rw [if_neg hrc] at hstep2
              exact (Except.ok.inj hstep2) ▸ hrevGood
          cases hparse : parseAtAtStr l0 with
          | none => rw [hparse] at hok; exact absurd hok (by simp)
          | some ch =>
            rw [hparse] at hok
            simp only at hok
            obtain ⟨htext, hfixed⟩ := (Prod.mk.injEq _ _ _ _).mp (Except.ok.inj hok)
            obtain ⟨hds, hns, htr⟩ := parseAtAt_fields l0.data ch hparse
            have hHL := mkHeaderLine_props ch
              (revised2.countP (fun l => !(pyStartsWith l "+")))
              (revised2.countP (fun l => !(pyStartsWith l "-"))) hds hns htr
            have hbodyProps : ∀ s ∈ revised2, s.data ≠ [] ∧ '\n' ∉ s.data := by
              intro s hs
              exact ⟨taggedLine_ne_empty s (hrev2Good s hs).1, (hrev2Good s hs).2⟩
            have hsplit : pySplitlines text =
                mkHeaderLine ch (revised2.countP (fun l => !(pyStartsWith l "+")))
                  (revised2.countP (fun l => !(pyStartsWith l "-"))) :: revised2 := by
              rw [← htext, mkHeader_eq_line]
              exact pySplitlines_header_body _ revised2 hHL hbodyProps
            have hbody : (pySplitlines text).drop 1 = revised2 := by
              rw [hsplit]
              rfl
            have hcount1 : revised2.countP (fun l => !(pyStartsWith l "+")) =
                revised2.countP (fun l => pyStartsWith l " " || pyStartsWith l "-") :=
              List.countP_congr (fun s hs => by
                rw [not_plus_iff_context_or_removed s (hrev2Good s hs).1])
            have hcount2 : revised2.countP (fun l => !(pyStartsWith l "-")) =
                revised2.countP (fun l => pyStartsWith l " " || pyStartsWith l "+") :=
              List.countP_congr (fun s hs => by
                rw [not_minus_iff_context_or_added s (hrev2Good s hs).1])
            refine ⟨ch, hparse, ?_, hfixed.symm⟩
            rw [hbody, ← hcount1, ← hcount2, ← htext]

/-- Witness for claim C3 on a concrete hunk whose header start fields
differ (old start 1, new start 2), so the modified flag comes back true. -/
theorem c3_witness :
    ∃ ch : HunkHeader,
      parseAtAtStr (["@@ -1,2 +2,2 @@", " line1", "-line2", "+line2x"] : List String).headI
        = some ch ∧
      "@@ -1,2 +2,2 @@\n line1\n-line2\n+line2x" = mkHeader ch
          (((pySplitlines "@@ -1,2 +2,2 @@\n line1\n-line2\n+line2x").drop 1).countP
            (fun l => pyStartsWith l " " || pyStartsWith l "-"))
          (((pySplitlines "@@ -1,2 +2,2 @@\n line1\n-line2\n+line2x").drop 1).countP
            (fun l => pyStartsWith l " " || pyStartsWith l "+"))
        ++ joinSep "\n" ((pySplitlines "@@ -1,2 +2,2 @@\n line1\n-line2\n+line2x").drop 1) ∧
      true = decide (ch.oldStart ≠ ch.newStart) :=
  c3_header_recomputation ["@@ -1,2 +2,2 @@", " line1", "-line2", "+line2x"]
    ["line1", "line2", "line3"] false
    "@@ -1,2 +2,2 @@\n line1\n-line2\n+line2x" true
    (by decide) (by decide) rfl

/-! ## Claim C5 -/

/-- A concrete project directory holding one file `f.c`. -/
def fsC5 : String → Option String := fun p =>
  if p = "f.c" then some "line1\nline2\nline3\n" else none

/-- A well-formed block whose header start fields drifted (1 vs 2), so its
repair flags it as modified. -/
def patchA : String :=
  "--- a/f.c\n+++ b/f.c\n@@ -1,2 +2,2 @@\n line1\n-line2\n+line2x\n"

/-- A block whose `---`/`+++` paths disagree, making the `assert` in
`revise_block` raise. -/
def patchB : String :=
  "--- a/foo\n+++ b/bar\n@@ -1,1 +1,1 @@\n x\n"

set_option maxRecDepth 4000 in
/-- Claim C5 is false as stated: block `patchA` alone is repaired (its
modified flag is true), but as soon as the patch also contains `patchB`,
whose repair raises an `AssertionError`, `revise_patch` returns the entire
patch unmodified with flag false — the remaining block is NOT repaired, the
exception aborts repair of the whole patch. -/
theorem c5_counterexample :
    revise_patch fsC5 patchA false = (patchA, true) ∧
    revise_patch fsC5 (patchA ++ patchB) false = (patchA ++ patchB, false) := by
  constructor
  · decide
  · decide

/-- Amended claim C5: only a failed file read is handled per block — such a
block is returned unmodified with flag false (and the other blocks continue
to be processed, since `revise_block` returns normally); any other
exception while repairing any block makes `revise_patch` return the entire
patch unmodified with overall flag false. -/
theorem c5_amended :
    (∀ (fs : String → Option String) (patch : String) (rc : Bool),
      revisePatchCore fs patch rc = .error () →
      revise_patch fs patch rc = (patch, false)) ∧
    (∀ (fs : String → Option String) (lines : List String) (rc : Bool) (l0 l1 : String),
      lines.get? 0 = some l0 → lines.get? 1 = some l1 →
      (let pa := match reCaptureLine "--- a/" l0 with
        | some p => (p, normpath p)
        | none => (l0, l0)
       let pb := match reCaptureLine "+++ b/" l1 with
        | some p => (p, normpath p)
        | none => (l1, l1)
       ((pa.1 = pb.1 ∧ pa.2 = pb.2) ∨ pa.2 = "--- /dev/null" ∨ pb.2 = "--- /dev/null") ∧
        fs pa.1 = none) →
      revise_block fs lines rc = .ok (lines, false)) := by
  constructor
  · intro fs patch rc herr
    unfold revise_patch
    rw [herr]
  · intro fs lines rc l0 l1 h0 h1 hcond
    obtain ⟨hassert, hfs⟩ := hcond
    unfold revise_block
    rw [h0, h1]
    simp only
    rw [if_pos hassert]
    rw [hfs]

/-- Witness for the amended claim C5: a block whose target file is absent
comes back unchanged with flag false, and a patch whose repair raises comes
back whole and unmodified. -/
theorem c5_amended_witness :
    revise_patch (fun _ => none) patchB false = (patchB, false) ∧
    revise_block (fun _ => none) ["--- a/x.c", "+++ b/x.c", "@@ -1,1 +1,1 @@", " a"] false =
      .ok (["--- a/x.c", "+++ b/x.c", "@@ -1,1 +1,1 @@", " a"], false) :=
  ⟨c5_amended.1 (fun _ => none) patchB false rfl,
   c5_amended.2 (fun _ => none) ["--- a/x.c", "+++ b/x.c", "@@ -1,1 +1,1 @@", " a"] false
     "--- a/x.c" "+++ b/x.c" rfl rfl ⟨Or.inl ⟨rfl, rfl⟩, rfl⟩⟩

/-! ## Claim C6 -/

theorem splitGo_no_markers (lines : List String) (flag : Bool)
    (h : ∀ l ∈ lines, pyStartsWith l "--- a/" = false ∧ pyStartsWith l "--- /dev/null" = false) :
    ∀ (idxs : List Nat) (msg : String), splitGo lines flag idxs (-1) msg [] = ([], false) := by
  intro idxs
  induction idxs with
  | nil =>
    intro msg
    rw [splitGo, if_neg (by omega)]
  | cons n rest ih =>
    intro msg
    have hline : pyStartsWith ((lines.get? n).getD "") "--- a/" = false ∧
        pyStartsWith ((lines.get? n).getD "") "--- /dev/null" = false := by
      cases hg : lines.get? n with
      | none => exact ⟨rfl, rfl⟩
      | some l => exact h l (List.get?_mem hg)
    rw [splitGo]
    rw [hline.1]
    rw [hline.2]
    simp only [Bool.false_eq_true, if_false]
    exact ih msg

/-- Claim C6: the patch splitter never raises past its caller — the caller
always receives exactly the units yielded before any internal exception
(`splitPatchE` makes the exception effect explicit, `split_patch` is the
caller-visible view) — and input with no file-start markers at all (input
that cannot be parsed into any unit) yields the empty sequence. -/
theorem c6_split_patch_total :
    (∀ (patch : String) (flag : Bool), split_patch patch flag = (splitPatchE patch flag).1) ∧
    (∀ (patch : String) (flag : Bool),
      (∀ l ∈ pySplitlines patch,
        pyStartsWith l "--- a/" = false ∧ pyStartsWith l "--- /dev/null" = false) →
      split_patch patch flag = []) := by
  constructor
  · intro patch flag
    rfl
  · intro patch flag h
    unfold split_patch splitPatchE
    rw [splitGo_no_markers (pySplitlines patch) flag h _ ""]

/-- Witness for claim C6: a malformed input with no markers yields no
units (and, separately evaluated, a truncated header sets the internal
exception flag yet still returns the empty yield list). -/
theorem c6_witness :
    split_patch "this is not a diff" true = [] ∧ splitPatchE "--- a/x" false = ([], true) :=
  ⟨c6_split_patch_total.2 "this is not a diff" true (by decide), rfl⟩

/-! ## Claim C7

The claim's search order, written out from its own words, and proved to be
exactly what `apply_file_move_handling` computes. -/

/-- Outcome report when a candidate path succeeds (claim C7: "the first
success wins and is reported with the old-path to new-path mapping"). -/
def specMovedMsg (missing fp : String) : String :=
  missing ++ " has been moved to " ++ fp ++ ". Please use --- a/" ++ fp ++ " in your patch.\n"

/-- Step (a) of the claim: rename detection between the target ref and the
patch's origin ref, restricted to the missing path (the oracle `fileDiff`
holds the raw `git diff --diff-filter=R` output; a malformed nonempty
answer raises). -/
def specRename (env : MoveEnv) : Except Unit (Option String) :=
  if env.fileDiff = "" then .ok none
  else
    match (pySplitOn env.fileDiff '\t').get? 1 with
    | none => .error ()
    | some p => .ok (some p)

/-- Step (b) of the claim: the identifier immediately preceding `{` or `(`
on the hunk's `@@` line, looked up in the symbol index; `none` when no
symbol can be extracted. -/
def specSymbolLocs (env : MoveEnv) (old_patch : String) : Option (List (String × Nat)) :=
  ((pySplitOn old_patch '\n').get? 2).bind fun atLine =>
    (symbolScan atLine.data false).map env.locateSymbol

/-- The claim's candidate search order: (a) the rename-detected path; (b)
otherwise the paths of the symbol-index locations; (c) when no symbol can
be extracted or the lookup is empty, the 5 repository filenames with
minimum edit distance to the missing filename. -/
def specCandidates (env : MoveEnv) (old_patch missing : String) : Except Unit (List String) :=
  (specRename env).map fun ren =>
    match ren with
    | some p => [p]
    | none =>
      match specSymbolLocs env old_patch with
      | some locs =>
        if locs = [] then find_most_similar_files (basename missing) env.walkFiles
        else locs.map Prod.fst
      | none => find_most_similar_files (basename missing) env.walkFiles

/-- The whole behaviour claim C7 describes: try each candidate in order by
re-running the apply with the path substituted; the first success is
reported as the old-to-new mapping; when none succeeds, report the
candidate list and the accumulated apply outputs. -/
def apply_file_move_spec (env : MoveEnv) (old_patch : String) : Except Unit String :=
  match reCaptureLine "--- a/" old_patch with
  | none => .error ()
  | some missing =>
    (specCandidates env old_patch missing).map fun cands =>
      match cands.find?
          (fun fp => pyIn "successfully" (env.applyHunk (pyReplace old_patch missing fp))) with
      | some fp => specMovedMsg missing fp
      | none =>
        "The target file has been moved, here is possible file paths:" ++ pyReprList cands
          ++ "\n" ++ String.join (cands.map fun fp => env.applyHunk (pyReplace old_patch missing fp))

theorem string_append_empty (s : String) : s ++ "" = s := by
  apply String.ext
  rw [String.data_append]
  simp [show ("" : String).data = [] from rfl]

theorem string_empty_append (s : String) : "" ++ s = s := by
  apply String.ext
  rw [String.data_append]
  rfl

theorem string_foldl_shift :
    ∀ (l : List String) (a : String),
      l.foldl (fun r s => r ++ s) a = a ++ l.foldl (fun r s => r ++ s) "" := by
  intro l
  induction l with
  | nil => intro a; rw [List.foldl_nil, List.foldl_nil, string_append_empty]
  | cons s t ih =>
    intro a
    rw [List.foldl_cons, List.foldl_cons, ih (a ++ s), ih ("" ++ s), string_empty_append,
      String.append_assoc]

theorem string_join_cons (s : String) (l : List String) :
    String.join (s :: l) = s ++ String.join l := by
  rw [show String.join (s :: l) = (s :: l).foldl (fun r s => r ++ s) "" from rfl,
    List.foldl_cons, string_foldl_shift l ("" ++ s), string_empty_append]
  rfl

theorem tryApplyLoop_eq_find (env : MoveEnv) (missing old_patch : String)
    (allPaths : List String) :
    ∀ (l : List String) (ret : String),
      tryApplyLoop env missing old_patch allPaths l ret =
        match l.find?
            (fun fp => pyIn "successfully" (env.applyHunk (pyReplace old_patch missing fp))) with
        | some fp => specMovedMsg missing fp
        | none =>
          "The target file has been moved, here is possible file paths:" ++ pyReprList allPaths
            ++ "\n" ++ (ret ++ String.join (l.map fun fp =>
              env.applyHunk (pyReplace old_patch missing fp))) := by
  intro l
  induction l with
  | nil =>
    intro ret
    rw [show (([] : List String).find?
        (fun fp => pyIn "successfully" (env.applyHunk (pyReplace old_patch missing fp)))) = none
      from rfl]
    rw [tryApplyLoop]
    rw [show String.join (([] : List String).map fun fp =>
        env.applyHunk (pyReplace old_patch missing fp)) = "" from rfl]
    rw [string_append_empty]
  | cons fp rest ih =>
    intro ret
    rw [tryApplyLoop, List.find?_cons]
    by_cases hsucc : pyIn "successfully" (env.applyHunk (pyReplace old_patch missing fp)) = true
    · rw [if_pos hsucc, hsucc]
      rfl
    · have hsucc' : pyIn "successfully" (env.applyHunk (pyReplace old_patch missing fp)) = false := by
        cases hb : pyIn "successfully" (env.applyHunk (pyReplace old_patch missing fp)) with
        | false => rfl
        | true => exact absurd hb hsucc
      rw [if_neg hsucc, hsucc', ih]
      cases hfind : rest.find?
          (fun fp => pyIn "successfully" (env.applyHunk (pyReplace old_patch missing fp))) with
      | some fp' => rfl
      | none =>
        simp only [List.map_cons, string_join_cons, String.append_assoc]

/-- Claim C7: `Project._apply_file_move_handling` implements exactly the
claimed search order — (a) git rename detection restricted to the missing
path; (b) if no rename is found, the `@@`-trailer symbol (the identifier
immediately preceding a brace or parenthesis) looked up in the symbol
index; (c) if still unresolved, the 5 repository filenames with minimum
edit distance to the missing filename — retrying the whole apply for each
candidate, first success winning and being reported as the old-to-new path
mapping. -/
theorem c7_move_search_order (env : MoveEnv) (old_patch : String) :
    apply_file_move_handling env old_patch = apply_file_move_spec env old_patch := by
  unfold apply_file_move_handling apply_file_move_spec
  cases hcap : reCaptureLine "--- a/" old_patch with
  | none => rfl
  | some missing =>
    simp only
    unfold specCandidates specRename specSymbolLocs
    by_cases hdiff : env.fileDiff = ""
    · rw [if_pos hdiff, if_pos hdiff]
      simp only [Except.map, if_pos rfl]
      cases hat : (pySplitOn old_patch '\n').get? 2 with
      | none =>
        simp only [Option.none_bind, if_true]
        rw [tryApplyLoop_eq_find]
        rfl
      | some atLine =>
        simp only [Option.some_bind]
        cases hsym : symbolScan atLine.data false with
        | none =>
          simp only [Option.map_none', if_true]
          rw [tryApplyLoop_eq_find]
          rfl
        | some sym =>
          simp only [Option.map_some', if_true]
          by_cases hlocs : env.locateSymbol sym = []
          · rw [tryApplyLoop_eq_find]
            rfl
          · rw [tryApplyLoop_eq_find]
            rfl
    · rw [if_neg hdiff, if_neg hdiff]
      cases htab : (pySplitOn env.fileDiff '\t').get? 1 with
      | none => rfl
      | some p =>
        simp only [Except.map]
        rw [if_neg (by simp : ¬([p] = ([] : List String)))]
        rw [tryApplyLoop_eq_find]
        rfl

/-! ## Claim C8 -/

/-- A session state that has applied all hunks and compiled successfully. -/
def c8State : ProjState :=
  { all_hunks_applied_succeeded := true, compile_succeeded := true,
    testcase_succeeded := false, poc_succeeded := false,
    context_mismatch_times := 0, round_succeeded := false }

/-- Claim C8 is false as stated: it says a test timeout resets the
compiled-success flag to false, but on timeout `_run_testcase` returns only
the timeout message and leaves every flag untouched — `compile_succeeded`
stays true (and no captured output exists to report). -/
theorem c8_counterexample :
    ¬ ((run_testcase true ProcOutcome.timeout c8State).1.compile_succeeded = false) := by
  decide

theorem containsSub_nil : ∀ s : List Char, containsSub s [] = true := by
  intro s
  cases s with
  | nil => rfl
  | cons c cs =>
    rw [containsSub]
    simp

theorem containsSub_append_middle (x : List Char) :
    ∀ (a b : List Char), containsSub (a ++ x ++ b) x = true := by
  intro a
  induction a with
  | nil =>
    intro b
    cases hx : x with
    | nil => exact containsSub_nil _
    | cons c cs =>
      simp only [List.nil_append, List.cons_append]
      rw [containsSub]
      apply Bool.or_eq_true_iff.mpr
      left
      rw [show (c :: (cs ++ b) : List Char).take (c :: cs).length = c :: cs from by
        simp [List.take_left]]
      exact beq_self_eq_true _
  | cons p a' ih =>
    intro b
    rw [show ((p :: a') ++ x ++ b : List Char) = p :: (a' ++ x ++ b) from by simp]
    rw [containsSub]
    apply Bool.or_eq_true_iff.mpr
    right
    exact ih b

/-- Amended claim C8: the testcase stage runs only after the compile stage
has succeeded; an absent `test.sh` counts as a pass; a non-zero exit is
reported together with the captured output and resets the compiled flag to
force recompilation; a timeout, however, is reported as a bare timeout
message and leaves all flags (including the compiled flag) unchanged. -/
theorem c8_amended :
    (∀ (cp : Bool → ProjState → ProjState × String) (tse : Bool) (oc : ProcOutcome)
        (rp : ProjState → ProjState × String) (st : ProjState),
      (validateCompileStage cp st).1.compile_succeeded = false →
      validate_applied cp tse oc rp st = validateCompileStage cp st) ∧
    (∀ (oc : ProcOutcome) (st : ProjState),
      run_testcase false oc st = ({ st with testcase_succeeded := true }, testPassMsg)) ∧
    (∀ (st : ProjState) (rc : Int) (out : String), rc ≠ 0 →
      run_testcase true (ProcOutcome.finished rc out) st =
        ({ st with compile_succeeded := false }, testFailMsg out) ∧
      pyIn out (testFailMsg out) = true) ∧
    (∀ st : ProjState, run_testcase true ProcOutcome.timeout st = (st, testTimeoutMsg)) := by
  refine ⟨?_, ?_, ?_, ?_⟩
  · intro cp tse oc rp st hfail
    unfold validate_applied validateTestStage validatePocStage
    rw [hfail]
    simp only [Bool.false_and, Bool.false_eq_true, if_false]
    rw [hfail]
    simp only [Bool.false_and, Bool.false_eq_true, if_false]
    rw [string_append_empty, string_append_empty]
  · intro oc st
    rfl
  · intro st rc out hrc
    constructor
    · unfold run_testcase
      rw [if_neg (by simp)]
      simp only
      rw [if_pos hrc]
    · unfold pyIn testFailMsg
      rw [String.data_append, String.data_append]
      exact containsSub_append_middle out.data testFailMsgPre.data testFailMsgPost.data
  · intro st
    rfl

/-- Witness for the amended claim C8: a failing test run (exit code 1)
resets the compiled flag and its report embeds the captured output. -/
theorem c8_amended_witness :
    run_testcase true (ProcOutcome.finished 1 "boom") c8State =
      ({ c8State with compile_succeeded := false }, testFailMsg "boom") ∧
    pyIn "boom" (testFailMsg "boom") = true :=
  c8_amended.2.2.1 c8State 1 "boom" (by decide)

end LLM4Backport

namespace LLM4Backport

/-- Witness for claim C2: a removed line differing only in whitespace is
replaced (tag kept); evaluated on a concrete hunk body. -/
theorem c2_witness :
    ∃ newLine,
      pyIdx ["foo"] (1 - 1 + ((countCR ((["-foo  "] : List String).take 0) : Nat) : Int))
        = some newLine ∧
      (["-foo"] : List String).get? 0 =
        some (if stripAllWS (strDrop "-foo  " 1) = stripAllWS newLine
          then strTake "-foo  " 1 ++ stripNl newLine else "-foo  ") :=
  c2_whitespace_only_rewrite ["foo"] 1 ["-foo  "] ["-foo"] 0 "-foo  "
    rfl rfl (Or.inr rfl)

end LLM4Backport
